import Mathlib

/-!
Verification of the EPUB-to-print-PDF core: the CSS-to-react-pdf style
converter (`src/lib/cssToReactPdf.ts`) and the HTML-to-content-tree parser
(`src/unnamed/part_000`).

Modelling conventions:
* JavaScript strings are modelled as `String` / `List Char`; the handful of
  string operations the source uses (trim, toLowerCase, split, regex scans)
  are implemented explicitly below with JavaScript semantics.
* JavaScript numbers are modelled as exact rationals; all numeric literals
  appearing in the source are decimal and the arithmetic performed on them
  (parseFloat, multiplication by fixed conversion factors) is exact at the
  inputs the specification discusses.
* JavaScript objects are modelled as insertion-ordered association lists
  (`List (String × JsVal)`); property assignment replaces the value in place
  when the key exists and appends otherwise, exactly as JS property update
  does.
* Scanning loops that are not structurally recursive are given explicit fuel
  bounded by the input length; every scanner consumes at least one character
  per step, so fuel equal to the input length is always sufficient.
-/

/-- A JavaScript value as used by the style converter: a string, a number,
an object (insertion-ordered key/value list) or an array. -/
inductive JsVal where
  | str : String → JsVal
  | num : ℚ → JsVal
  | obj : List (String × JsVal) → JsVal
  | arr : List JsVal → JsVal
deriving Repr

/-- A style object: a JS object of style keys to values. -/
abbrev StyleObj := List (String × JsVal)

/-- First value bound to key `k` (JS property read). -/
def jsLookup {β : Type} (m : List (String × β)) (k : String) : Option β :=
  match m with
  | [] => none
  | (k₁, v₁) :: t => if k₁ = k then some v₁ else jsLookup t k

/-- JS property assignment `m[k] = v`: replaces the value in place when the
key is present, appends the pair otherwise. -/
def jsSet {β : Type} (m : List (String × β)) (k : String) (v : β) :
    List (String × β) :=
  match m with
  | [] => [(k, v)]
  | (k₁, v₁) :: t => if k₁ = k then (k, v) :: t else (k₁, v₁) :: jsSet t k v

/-- Object spread `\x7b...a, ...b\x7d`: assign every entry of `b` on top of a
copy of `a`. -/
def spreadObj {β : Type} (a b : List (String × β)) : List (String × β) :=
  b.foldl (fun m kv => jsSet m kv.1 kv.2) a

/-- Keys of an object in insertion order. -/
def objKeys {β : Type} (m : List (String × β)) : List String := m.map Prod.fst

/-- The object has no duplicate keys (true of every object reachable in the
source, since JS objects cannot carry duplicate keys). -/
def NoDupKeys {β : Type} (m : List (String × β)) : Prop := (objKeys m).Nodup

instance {β : Type} (m : List (String × β)) : Decidable (NoDupKeys m) := by
  unfold NoDupKeys; infer_instance

/-- JS falsiness for the values of `JsVal` (`''` and `0` are falsy; objects
and arrays are always truthy). -/
def jsFalsy : JsVal → Bool
  | .str s => s = ""
  | .num q => q = 0
  | .obj _ => false
  | .arr _ => false

/-- The own enumerable properties produced by spreading a value into an
object literal: objects give their entries, arrays their indexed elements,
strings their indexed characters, numbers nothing. -/
def jsSpreadable : JsVal → List (String × JsVal)
  | .obj o => o
  | .arr l => (l.enum.map fun p => (toString p.1, p.2))
  | .str s => (s.data.enum.map fun p => (toString p.1, JsVal.str (String.mk [p.2])))
  | .num _ => []

-- =========================================================================
-- Character and string utilities with JavaScript semantics
-- =========================================================================

/-- JS `\s` (whitespace): ASCII whitespace plus no-break space, BOM,
and the Unicode space separators. -/
def jsWs (c : Char) : Bool :=
  c = ' ' || c = '\t' || c = '\n' || c = '\x0d' || c = '\x0b' || c = '\x0c' ||
  c = Char.ofNat 0xa0 || c = Char.ofNat 0xfeff || c = Char.ofNat 0x1680 ||
  (Char.ofNat 0x2000 ≤ c && c ≤ Char.ofNat 0x200a) ||
  c = Char.ofNat 0x2028 || c = Char.ofNat 0x2029 || c = Char.ofNat 0x202f ||
  c = Char.ofNat 0x205f || c = Char.ofNat 0x3000

def isDigitC (c : Char) : Bool := '0' ≤ c && c ≤ '9'

/-- JS `\w` word character. -/
def isWordC (c : Char) : Bool :=
  ('a' ≤ c && c ≤ 'z') || ('A' ≤ c && c ≤ 'Z') || isDigitC c || c = '_'

def isAsciiAlpha (c : Char) : Bool := ('a' ≤ c && c ≤ 'z') || ('A' ≤ c && c ≤ 'Z')

/-- ASCII lowercase of one character (JS `toLowerCase` on the inputs used). -/
def lowerC (c : Char) : Char :=
  if 'A' ≤ c && c ≤ 'Z' then Char.ofNat (c.toNat + 32) else c

def lowerL (cs : List Char) : List Char := cs.map lowerC

def jsToLower (s : String) : String := String.mk (lowerL s.data)

/-- `String.prototype.trim`. -/
def jsTrimL (cs : List Char) : List Char :=
  ((cs.dropWhile (jsWs ·)).reverse.dropWhile (jsWs ·)).reverse

def jsTrim (s : String) : String := String.mk (jsTrimL s.data)

/-- `split` on a single literal character (JS `split(';')`, `split(',')`). -/
def splitOnCharL (sep : Char) : List Char → List (List Char)
  | [] => [[]]
  | c :: cs =>
    match splitOnCharL sep cs with
    | [] => [[c]]
    | h :: t => if c = sep then [] :: h :: t else (c :: h) :: t

def jsSplitOn (sep : Char) (s : String) : List String :=
  (splitOnCharL sep s.data).map String.mk

/-- JS `split(/\s+/)`: split on maximal whitespace runs, keeping the empty
pieces a leading or trailing run produces. -/
def splitWsL : List Char → List (List Char)
  | [] => [[]]
  | c :: cs =>
    match splitWsL cs with
    | [] => [[c]]
    | h :: t =>
      if jsWs c then
        match cs with
        | [] => [] :: [] :: []
        | c₂ :: _ => if jsWs c₂ then h :: t else [] :: h :: t
      else (c :: h) :: t

def jsSplitWs (s : String) : List String := (splitWsL s.data).map String.mk

/-- Case-insensitive prefix test on character lists. -/
def ciPrefix : List Char → List Char → Bool
  | [], _ => true
  | _ :: _, [] => false
  | p :: ps, c :: cs => lowerC p = lowerC c && ciPrefix ps cs

/-- Case-sensitive prefix test on character lists. -/
def litPrefix : List Char → List Char → Bool
  | [], _ => true
  | _ :: _, [] => false
  | p :: ps, c :: cs => p = c && litPrefix ps cs

/-- Suffix test on character lists. -/
def endsWithL (suf cs : List Char) : Bool := litPrefix suf.reverse cs.reverse

-- =========================================================================
-- Number parsing (JS `parseFloat` / `parseInt` on the inputs used)
-- =========================================================================

/-- Leading minus sign of the `-?` regex fragment. -/
def stripNeg : List Char → Bool × List Char
  | '-' :: r => (true, r)
  | cs => (false, cs)

def natOfDigits (ds : List Char) : ℕ :=
  ds.foldl (fun a c => a * 10 + (c.toNat - 48)) 0

/-- Exact value of a decimal literal `[-]d1[.d2]`. -/
def decValue (neg : Bool) (d1 d2 : List Char) : ℚ :=
  let n : ℚ := (natOfDigits d1 : ℚ) + (natOfDigits d2 : ℚ) / 10 ^ d2.length
  if neg then -n else n

/-- Anchored match of `^(-?\d+\.?\d*)U$` for a unit suffix `U`, returning the
`parseFloat` value of the captured coefficient. -/
def matchNumUnit (unit : List Char) (cs : List Char) : Option ℚ :=
  let p := stripNeg cs
  let s₁ := p.2.span (isDigitC ·)
  if s₁.1.isEmpty then none
  else
    match s₁.2 with
    | '.' :: r₃ =>
      let s₂ := r₃.span (isDigitC ·)
      if s₂.2 = unit then some (decValue p.1 s₁.1 s₂.1) else none
    | r₂ => if r₂ = unit then some (decValue p.1 s₁.1 []) else none

/-- Anchored match of `^-?\d+(\.\d+)?$` (the converter's pure-number test). -/
def isPureNum (cs : List Char) : Bool :=
  let p := stripNeg cs
  let s₁ := p.2.span (isDigitC ·)
  !s₁.1.isEmpty &&
    (match s₁.2 with
     | [] => true
     | '.' :: r₃ =>
       let s₂ := r₃.span (isDigitC ·)
       !s₂.1.isEmpty && s₂.2.isEmpty
     | _ => false)

/-- JS `parseFloat`: longest valid decimal-literal prefix after leading
whitespace; `none` models `NaN`. (`Infinity`, which never occurs in a
stylesheet length, is not modelled.) -/
def jsParseFloat (s : String) : Option ℚ :=
  let cs := s.data.dropWhile (jsWs ·)
  let sign : Bool × List Char :=
    match cs with
    | '-' :: r => (true, r)
    | '+' :: r => (false, r)
    | r => (false, r)
  let s₁ := sign.2.span (isDigitC ·)
  let frac : Option (List Char × List Char) :=
    match s₁.2 with
    | '.' :: r₃ =>
      let s₂ := r₃.span (isDigitC ·)
      some (s₂.1, s₂.2)
    | r₂ => some ([], r₂)
  match frac with
  | none => none
  | some (d₂, rest) =>
    if s₁.1.isEmpty && d₂.isEmpty then none
    else
      let base := decValue sign.1 s₁.1 d₂
      let expPart : ℤ :=
        match rest with
        | 'e' :: r | 'E' :: r =>
          let es : Bool × List Char :=
            match r with
            | '-' :: r₂ => (true, r₂)
            | '+' :: r₂ => (false, r₂)
            | r₂ => (false, r₂)
          let ds := es.2.takeWhile (isDigitC ·)
          if ds.isEmpty then 0
          else if es.1 then -(natOfDigits ds : ℤ) else (natOfDigits ds : ℤ)
        | _ => 0
      some (base * (10 : ℚ) ^ expPart)

/-- JS `parseInt` with no radix argument: whitespace, optional sign, then a
hex literal when prefixed `0x`/`0X`, else decimal digits; `none` is `NaN`. -/
def jsParseInt (s : String) : Option ℤ :=
  let cs := s.data.dropWhile (jsWs ·)
  let sign : Bool × List Char :=
    match cs with
    | '-' :: r => (true, r)
    | '+' :: r => (false, r)
    | r => (false, r)
  let isHexDigit (c : Char) : Bool :=
    isDigitC c || ('a' ≤ c && c ≤ 'f') || ('A' ≤ c && c ≤ 'F')
  let hexVal (c : Char) : ℕ :=
    if isDigitC c then c.toNat - 48
    else if 'a' ≤ c && c ≤ 'f' then c.toNat - 87 else c.toNat - 55
  let core : Option ℕ :=
    match sign.2 with
    | '0' :: 'x' :: r | '0' :: 'X' :: r =>
      let ds := r.takeWhile isHexDigit
      if ds.isEmpty then none else some (ds.foldl (fun a c => a * 16 + hexVal c) 0)
    | r =>
      let ds := r.takeWhile (isDigitC ·)
      if ds.isEmpty then none else some (natOfDigits ds)
  core.map fun n => if sign.1 then -(n : ℤ) else (n : ℤ)

-- =========================================================================
-- UnitConverter (`convertUnit`)
-- =========================================================================

/-- Base font size for em conversion (`BASE_FONT_SIZE_PT`). -/
def BASE_FONT_SIZE_PT : ℚ := 11

/-- Convert a CSS unit value to a react-pdf compatible value
(`convertUnit`): keywords pass through, pure numbers parse, percentages and
`vw`/`vh` stay strings, `em`/`rem`/`px`/`pt`/`in`/`mm`/`cm` convert to
points, and anything else passes through trimmed. -/
def convertUnit (value : String) : JsVal :=
  if value = "" || value = "inherit" || value = "initial" || value = "unset" ||
      value = "auto" then
    .str value
  else
    let trimmed := jsTrimL value.data
    if isPureNum trimmed then .num ((jsParseFloat (String.mk trimmed)).getD 0)
    else if endsWithL ['%'] trimmed then .str (String.mk trimmed)
    else
      match matchNumUnit ['e', 'm'] trimmed with
      | some q => .num (q * BASE_FONT_SIZE_PT)
      | none =>
      match matchNumUnit ['r', 'e', 'm'] trimmed with
      | some q => .num (q * BASE_FONT_SIZE_PT)
      | none =>
      match matchNumUnit ['p', 'x'] trimmed with
      | some q => .num (q * (3 / 4 : ℚ))
      | none =>
      match matchNumUnit ['p', 't'] trimmed with
      | some q => .num q
      | none =>
      match matchNumUnit ['i', 'n'] trimmed with
      | some q => .num (q * 72)
      | none =>
      match matchNumUnit ['m', 'm'] trimmed with
      | some q => .num (q * (283465 / 100000 : ℚ))
      | none =>
      match matchNumUnit ['c', 'm'] trimmed with
      | some q => .num (q * (283465 / 10000 : ℚ))
      | none =>
      if endsWithL ['v', 'w'] trimmed || endsWithL ['v', 'h'] trimmed then
        .str (String.mk trimmed)
      else .str (String.mk trimmed)

-- =========================================================================
-- Generic fueled scanners (each step consumes at least one character, so
-- fuel equal to the input length is always enough)
-- =========================================================================

/-- Repeatedly find the leftmost match of `step` (a regex `exec` loop):
on a match, collect it and resume after the consumed text; otherwise
advance one character. -/
def scanAll {α : Type} (step : List Char → Option (α × List Char)) :
    ℕ → List Char → List α
  | 0, _ => []
  | _, [] => []
  | f + 1, c :: cs =>
    match step (c :: cs) with
    | some (a, rest) => a :: scanAll step f rest
    | none => scanAll step f cs

-- =========================================================================
-- TransformParser (`parseTransform`)
-- =========================================================================

/-- One match of the transform-function regex `(\w+)\(([^)]+)\)`:
a word run, an opening parenthesis, a non-empty run without closing
parenthesis, and the closing parenthesis. -/
def transformStep (cs : List Char) :
    Option ((List Char × List Char) × List Char) :=
  let s₁ := cs.span (isWordC ·)
  if s₁.1.isEmpty then none
  else
    match s₁.2 with
    | '(' :: r =>
      let s₂ := r.span (fun c => c ≠ ')')
      if s₂.1.isEmpty then none
      else
        match s₂.2 with
        | ')' :: rest => some ((s₁.1, s₂.1), rest)
        | _ => none
    | _ => none

/-- `parseFloat(x) || 1` (NaN and 0 both give 1). -/
def pfOr1 (s : String) : ℚ :=
  match jsParseFloat s with
  | none => 1
  | some q => if q = 0 then 1 else q

/-- `parseFloat(x) || 0` (NaN gives 0). -/
def pfOr0 (s : String) : ℚ :=
  match jsParseFloat s with
  | none => 0
  | some q => q

/-- The react-pdf transform objects produced for one matched transform
function (the `switch (funcName)` of `parseTransform`). -/
def transformOps (name args : List Char) : List JsVal :=
  let argList := (splitOnCharL ',' args).map (fun a => String.mk (jsTrimL a))
  let arg (i : ℕ) : String := argList.getD i ""
  match String.mk name with
  | "rotate" => [.obj [("rotate", .str (arg 0))]]
  | "scale" =>
    if argList.length = 1 then [.obj [("scale", .num (pfOr1 (arg 0)))]]
    else [.obj [("scaleX", .num (pfOr1 (arg 0)))],
          .obj [("scaleY", .num (pfOr1 (arg 1)))]]
  | "scaleX" => [.obj [("scaleX", .num (pfOr1 (arg 0)))]]
  | "scaleY" => [.obj [("scaleY", .num (pfOr1 (arg 0)))]]
  | "translate" =>
    (if argList.length ≥ 1 then [.obj [("translateX", convertUnit (arg 0))]] else []) ++
    (if argList.length ≥ 2 then [.obj [("translateY", convertUnit (arg 1))]] else [])
  | "translateX" => [.obj [("translateX", convertUnit (arg 0))]]
  | "translateY" => [.obj [("translateY", convertUnit (arg 0))]]
  | "skew" =>
    (if argList.length ≥ 1 then [.obj [("skewX", .str (arg 0))]] else []) ++
    (if argList.length ≥ 2 then [.obj [("skewY", .str (arg 1))]] else [])
  | "skewX" => [.obj [("skewX", .str (arg 0))]]
  | "skewY" => [.obj [("skewY", .str (arg 0))]]
  | "matrix" =>
    if argList.length = 6 then
      [.obj [("matrix", .arr (argList.map (fun a => .num (pfOr0 a))))]]
    else []
  | _ => []

/-- Parse a CSS transform value to the react-pdf transform array
(`parseTransform`); `none` when no transform operation was produced. -/
def parseTransform (cssValue : String) : Option (List JsVal) :=
  let found := scanAll transformStep cssValue.data.length cssValue.data
  let transforms := found.foldl (fun acc fn => acc ++ transformOps fn.1 fn.2) []
  if transforms.isEmpty then none else some transforms

-- =========================================================================
-- DeclarationMapper (`convertProperty` and its tables)
-- =========================================================================

/-- `SUPPORTED_PROPERTIES` (from react-pdf styling.md; font properties are
deliberately excluded). -/
def SUPPORTED_PROPERTIES : List String :=
  ["alignContent", "alignItems", "alignSelf", "flex", "flexDirection",
   "flexWrap", "flexFlow", "flexGrow", "flexShrink", "flexBasis",
   "justifyContent", "gap", "rowGap", "columnGap",
   "bottom", "display", "left", "position", "right", "top", "overflow", "zIndex",
   "height", "maxHeight", "maxWidth", "minHeight", "minWidth", "width",
   "backgroundColor", "color", "opacity",
   "letterSpacing", "maxLines", "textAlign", "textDecoration", "textDecorationColor",
   "textDecorationStyle", "textIndent", "textOverflow", "textTransform",
   "objectFit", "objectPosition",
   "margin", "marginHorizontal", "marginVertical",
   "marginTop", "marginRight", "marginBottom", "marginLeft",
   "padding", "paddingHorizontal", "paddingVertical",
   "paddingTop", "paddingRight", "paddingBottom", "paddingLeft",
   "transform", "transformOrigin",
   "border", "borderColor", "borderStyle", "borderWidth",
   "borderTop", "borderTopColor", "borderTopStyle", "borderTopWidth",
   "borderRight", "borderRightColor", "borderRightStyle", "borderRightWidth",
   "borderBottom", "borderBottomColor", "borderBottomStyle", "borderBottomWidth",
   "borderLeft", "borderLeftColor", "borderLeftStyle", "borderLeftWidth",
   "borderTopLeftRadius", "borderTopRightRadius",
   "borderBottomRightRadius", "borderBottomLeftRadius"]

/-- `PROPERTY_MAP`: explicit kebab-case to react-pdf key table. -/
def PROPERTY_MAP : List (String × String) :=
  [("text-indent", "textIndent"),
   ("text-align", "textAlign"),
   ("text-decoration", "textDecoration"),
   ("text-decoration-color", "textDecorationColor"),
   ("text-decoration-style", "textDecorationStyle"),
   ("text-transform", "textTransform"),
   ("text-overflow", "textOverflow"),
   ("letter-spacing", "letterSpacing"),
   ("max-lines", "maxLines"),
   ("background-color", "backgroundColor"),
   ("object-fit", "objectFit"),
   ("object-position", "objectPosition"),
   ("margin-top", "marginTop"),
   ("margin-right", "marginRight"),
   ("margin-bottom", "marginBottom"),
   ("margin-left", "marginLeft"),
   ("padding-top", "paddingTop"),
   ("padding-right", "paddingRight"),
   ("padding-bottom", "paddingBottom"),
   ("padding-left", "paddingLeft"),
   ("transform", "transform"),
   ("transform-origin", "transformOrigin"),
   ("border-color", "borderColor"),
   ("border-style", "borderStyle"),
   ("border-width", "borderWidth"),
   ("border-top", "borderTop"),
   ("border-top-color", "borderTopColor"),
   ("border-top-style", "borderTopStyle"),
   ("border-top-width", "borderTopWidth"),
   ("border-right", "borderRight"),
   ("border-right-color", "borderRightColor"),
   ("border-right-style", "borderRightStyle"),
   ("border-right-width", "borderRightWidth"),
   ("border-bottom", "borderBottom"),
   ("border-bottom-color", "borderBottomColor"),
   ("border-bottom-style", "borderBottomStyle"),
   ("border-bottom-width", "borderBottomWidth"),
   ("border-left", "borderLeft"),
   ("border-left-color", "borderLeftColor"),
   ("border-left-style", "borderLeftStyle"),
   ("border-left-width", "borderLeftWidth"),
   ("border-top-left-radius", "borderTopLeftRadius"),
   ("border-top-right-radius", "borderTopRightRadius"),
   ("border-bottom-right-radius", "borderBottomRightRadius"),
   ("border-bottom-left-radius", "borderBottomLeftRadius"),
   ("max-width", "maxWidth"),
   ("max-height", "maxHeight"),
   ("min-width", "minWidth"),
   ("min-height", "minHeight"),
   ("flex-direction", "flexDirection"),
   ("flex-wrap", "flexWrap"),
   ("flex-flow", "flexFlow"),
   ("flex-grow", "flexGrow"),
   ("flex-shrink", "flexShrink"),
   ("flex-basis", "flexBasis"),
   ("justify-content", "justifyContent"),
   ("align-items", "alignItems"),
   ("align-self", "alignSelf"),
   ("align-content", "alignContent"),
   ("row-gap", "rowGap"),
   ("column-gap", "columnGap"),
   ("z-index", "zIndex"),
   ("margin", "margin"),
   ("padding", "padding"),
   ("border", "border"),
   ("width", "width"),
   ("height", "height"),
   ("top", "top"),
   ("right", "right"),
   ("bottom", "bottom"),
   ("left", "left"),
   ("position", "position"),
   ("display", "display"),
   ("overflow", "overflow"),
   ("opacity", "opacity"),
   ("color", "color"),
   ("flex", "flex"),
   ("gap", "gap")]

def upperC (c : Char) : Char := Char.ofNat (c.toNat - 32)

/-- `camelCase`: kebab-case to camelCase, replacing each dash followed by a
lowercase letter with that letter uppercased (global regex replace). -/
def camelCaseL : List Char → List Char
  | [] => []
  | '-' :: c :: rest =>
    if 'a' ≤ c && c ≤ 'z' then upperC c :: camelCaseL rest
    else '-' :: camelCaseL (c :: rest)
  | c :: rest => c :: camelCaseL rest

def camelCase (s : String) : String := String.mk (camelCaseL s.data)

/-- Result of converting one declaration: one key/value pair or an expanded
shorthand list (`ConvertResult` minus its `null` case, which is modelled by
`Option`). -/
inductive ConvertResult where
  | pair : String → JsVal → ConvertResult
  | multiple : List (String × JsVal) → ConvertResult
deriving Repr

/-- Handle margin/padding shorthand with 1 to 4 values
(`convertBoxShorthand`); the split always yields at least one piece, so the
`getD` defaults are never used. -/
def convertBoxShorthand (property : String) (value : String) : ConvertResult :=
  let parts := (jsSplitWs value).map convertUnit
  let part (i : ℕ) : JsVal := parts.getD i (.str "")
  if parts.length = 1 then .pair property (part 0)
  else if parts.length = 2 then
    .multiple [(property ++ "Vertical", part 0), (property ++ "Horizontal", part 1)]
  else if parts.length = 3 then
    .multiple [(property ++ "Top", part 0), (property ++ "Horizontal", part 1),
               (property ++ "Bottom", part 2)]
  else if parts.length = 4 then
    .multiple [(property ++ "Top", part 0), (property ++ "Right", part 1),
               (property ++ "Bottom", part 2), (property ++ "Left", part 3)]
  else .pair property (part 0)

/-- Convert a CSS property/value pair to react-pdf format
(`convertProperty`); `none` models the `null` result.  The source's
`switch (cssProperty)` is rendered as the equivalent sequential
comparison chain. -/
def convertProperty (cssProperty : String) (cssValue : String) : Option ConvertResult :=
  let reactPdfKey :=
    match List.lookup cssProperty PROPERTY_MAP with
    | some k => k
    | none => camelCase cssProperty
  if !(SUPPORTED_PROPERTIES.contains reactPdfKey) then none
  else if ["inherit", "initial", "unset", "revert"].contains
      (jsToLower (jsTrim cssValue)) then none
  else if cssProperty = "font-weight" then
    if cssValue = "bold" then some (.pair reactPdfKey (.str "bold"))
    else if cssValue = "normal" then some (.pair reactPdfKey (.str "normal"))
    else
      match jsParseInt cssValue with
      | some w => some (.pair reactPdfKey (.num (w : ℚ)))
      | none => some (.pair reactPdfKey (.str cssValue))
  else if cssProperty = "font-style" then some (.pair reactPdfKey (.str cssValue))
  else if cssProperty = "text-align" then
    if ["left", "right", "center", "justify"].contains cssValue then
      some (.pair reactPdfKey (.str cssValue))
    else none
  else if cssProperty = "text-decoration" then
    if ["none", "underline", "line-through", "underline line-through"].contains cssValue then
      some (.pair reactPdfKey (.str cssValue))
    else none
  else if cssProperty = "text-transform" then
    if ["none", "uppercase", "lowercase", "capitalize"].contains cssValue then
      some (.pair reactPdfKey (.str cssValue))
    else none
  else if cssProperty = "display" then
    if cssValue = "flex" then some (.pair reactPdfKey (.str "flex")) else none
  else if cssProperty = "position" then
    if ["absolute", "relative"].contains cssValue then
      some (.pair reactPdfKey (.str cssValue))
    else none
  else if cssProperty = "line-height" then some (.pair reactPdfKey (convertUnit cssValue))
  else if cssProperty = "margin" then some (convertBoxShorthand reactPdfKey cssValue)
  else if cssProperty = "padding" then some (convertBoxShorthand reactPdfKey cssValue)
  else if cssProperty = "transform" then
    match parseTransform cssValue with
    | some transformArray => some (.pair "transform" (.arr transformArray))
    | none => none
  else if cssProperty = "transform-origin" then
    some (.pair "transformOrigin" (.str cssValue))
  else if cssProperty = "object-fit" then some (.pair reactPdfKey (.str cssValue))
  else if cssProperty = "object-position" then some (.pair reactPdfKey (.str cssValue))
  else some (.pair reactPdfKey (convertUnit cssValue))

/-- Parse a CSS declaration block into a react-pdf style object
(`parseDeclarationBlock`). -/
def parseDeclarationBlock (cssText : String) : StyleObj :=
  let declarations := (jsSplitOn ';' cssText).filter (fun d => !(jsTrimL d.data).isEmpty)
  declarations.foldl
    (fun style decl =>
      match decl.data.findIdx? (fun c => c = ':') with
      | none => style
      | some i =>
        let property := jsTrim (String.mk (decl.data.take i))
        let value := jsTrim (String.mk (decl.data.drop (i + 1)))
        match convertProperty property value with
        | none => style
        | some (.multiple items) => items.foldl (fun st it => jsSet st it.1 it.2) style
        | some (.pair k v) => jsSet style k v)
    []

-- =========================================================================
-- StyleCascadeResolver: media queries, selector helpers, the style map
-- =========================================================================

/-- Replace each maximal run of characters satisfying `p` by the single
character `rep` (fueled; each step consumes at least one character). -/
def replaceRuns (p : Char → Bool) (rep : Char) : ℕ → List Char → List Char
  | 0, cs => cs
  | _, [] => []
  | f + 1, c :: cs =>
    if p c then rep :: replaceRuns p rep f (cs.dropWhile p)
    else c :: replaceRuns p rep f cs

/-- Collapse whitespace runs to single spaces (`replace` of `\s+` by a
space). -/
def collapseWs (cs : List Char) : List Char := replaceRuns (jsWs ·) ' ' cs.length cs

/-- Scan for the leftmost position where `step` produces a value. -/
def findMap {α : Type} (step : List Char → Option α) : List Char → Option α
  | [] => none
  | c :: cs =>
    match step (c :: cs) with
    | some a => some a
    | none => findMap step cs

/-- Match a media condition `LIT` then optional whitespace then one or more
digits at the head of the text, capturing the digits. -/
def mediaNumStep (lit : List Char) (cs : List Char) : Option (List Char) :=
  if ciPrefix lit cs then
    let r := (cs.drop lit.length).dropWhile (jsWs ·)
    let ds := r.takeWhile (isDigitC ·)
    if ds.isEmpty then none else some ds
  else none

/-- Match `orientation:` then optional whitespace then `landscape` or
`portrait` (case-insensitively), capturing the matched word as written. -/
def orientationStep (cs : List Char) : Option (List Char) :=
  if ciPrefix "orientation:".data cs then
    let r := (cs.drop 12).dropWhile (jsWs ·)
    if ciPrefix "landscape".data r then some (r.take 9)
    else if ciPrefix "portrait".data r then some (r.take 8)
    else none
  else none

/-- Convert a CSS media query prelude to the react-pdf media key
(`convertMediaQuery`): the five recognized condition patterns are tried in
order and the first match wins; unrecognized media text yields `none`. -/
def convertMediaQuery (mediaText : String) : Option String :=
  let t := mediaText.data
  match findMap (mediaNumStep "max-width:".data) t with
  | some ds => some ("@media max-width: " ++ String.mk ds)
  | none =>
  match findMap (mediaNumStep "min-width:".data) t with
  | some ds => some ("@media min-width: " ++ String.mk ds)
  | none =>
  match findMap (mediaNumStep "max-height:".data) t with
  | some ds => some ("@media max-height: " ++ String.mk ds)
  | none =>
  match findMap (mediaNumStep "min-height:".data) t with
  | some ds => some ("@media min-height: " ++ String.mk ds)
  | none =>
  match findMap orientationStep t with
  | some w => some ("@media orientation: " ++ String.mk w)
  | none => none

/-- Normalize a CSS selector (`normalizeSelector`): trim, then collapse
whitespace runs to single spaces. -/
def normalizeSelector (selector : String) : String :=
  String.mk (collapseWs (jsTrimL selector.data))

def isClassNameChar (c : Char) : Bool :=
  isAsciiAlpha c || isDigitC c || c = '_' || c = '-'

/-- One match of the class-name regex: a dot followed by a non-empty run of
class-name characters. -/
def classStep (cs : List Char) : Option (List Char × List Char) :=
  match cs with
  | '.' :: r =>
    let run := r.takeWhile isClassNameChar
    if run.isEmpty then none else some (run, r.drop run.length)
  | _ => none

/-- Extract class names from a selector (`extractClassNames`):
all dot-prefixed name runs, dots stripped. -/
def extractClassNames (selector : String) : List String :=
  (scanAll classStep selector.data.length selector.data).map String.mk

/-- Extract the tag name from a selector (`extractTagName`): the anchored
leading letter-then-alphanumeric run, lowercased; `none` when the selector
does not start with a letter. -/
def extractTagName (selector : String) : Option String :=
  match selector.data with
  | c :: r =>
    if isAsciiAlpha c then
      some (jsToLower (String.mk (c :: r.takeWhile (fun x => isAsciiAlpha x || isDigitC x))))
    else none
  | [] => none

/-- The style index: four buckets keyed by full selector, single class name,
tag name, and tag.class combo (`StyleMap`). -/
structure StyleMap where
  bySelector : List (String × StyleObj)
  byClass : List (String × StyleObj)
  byTag : List (String × StyleObj)
  byTagClass : List (String × StyleObj)
deriving Repr

/-- The empty style map `parseCssToReactPdf` starts from. -/
def emptyStyleMap : StyleMap := ⟨[], [], [], []⟩

/-- Base object of the nested media merge `merged[key] || \x7b\x7d`
spread: absent or falsy gives the empty object, otherwise the value's
spreadable entries. -/
def mediaMergeBase (v : Option JsVal) : List (String × JsVal) :=
  match v with
  | none => []
  | some w => if jsFalsy w then [] else jsSpreadable w

/-- `typeof value === 'object'` for the values of `JsVal`. -/
def isObjLike : JsVal → Bool
  | .obj _ => true
  | .arr _ => true
  | _ => false

def jsStartsWith (p : String) (s : String) : Bool := litPrefix p.data s.data

/-- One entry of the merge loop of `mergeStyles`: a media-prefixed key with
an object value shallow-merges into the existing sub-object under the same
key, every other entry overwrites. -/
def mergeStep (merged : StyleObj) (kv : String × JsVal) : StyleObj :=
  if jsStartsWith "@media" kv.1 && isObjLike kv.2 then
    jsSet merged kv.1
      (.obj (spreadObj (mediaMergeBase (jsLookup merged kv.1)) (jsSpreadable kv.2)))
  else jsSet merged kv.1 kv.2

/-- Merge styles, handling nested media query objects (`mergeStyles`):
plain keys of the incoming object overwrite, media-keyed object values are
shallow-merged into the existing sub-object under the same key. -/
def mergeStyles (existing : Option StyleObj) (incoming : StyleObj) : StyleObj :=
  match existing with
  | none => spreadObj [] incoming
  | some e => incoming.foldl mergeStep (spreadObj [] e)

/-- Register one selector's style object into the four buckets
(`addToStyleMap`): always into the full-selector bucket; into the class
bucket only for exactly one class; into the tag bucket only for a tag with
zero classes; into the tag.class bucket only for a tag with exactly one
class.  The target is the last space-separated part of the normalized
selector. -/
def bucketAdd (bucket : List (String × StyleObj)) (key : String) (style : StyleObj) :
    List (String × StyleObj) :=
  jsSet bucket key (mergeStyles (jsLookup bucket key) style)

/-- The target of a selector: the last space-separated part of its
normalized form (descendant combinators are truncated to their rightmost
simple selector). -/
def selTarget (selector : String) : String :=
  (jsSplitWs (normalizeSelector selector)).getLastD ""

def addToStyleMap (styleMap : StyleMap) (selector : String) (style : StyleObj) : StyleMap :=
  let normalized := normalizeSelector selector
  let targetPart := selTarget selector
  let m₁ := { styleMap with
    bySelector := bucketAdd styleMap.bySelector normalized style }
  let classNames := extractClassNames targetPart
  let tagName := extractTagName targetPart
  let m₂ :=
    if classNames.length = 1 then
      { m₁ with byClass := bucketAdd m₁.byClass (classNames.getD 0 "") style }
    else m₁
  let m₃ :=
    match tagName with
    | some t =>
      if classNames.length = 0 then
        { m₂ with byTag := bucketAdd m₂.byTag t style }
      else m₂
    | none => m₂
  match tagName with
  | some t =>
    if classNames.length = 1 then
      { m₃ with
        byTagClass := bucketAdd m₃.byTagClass (t ++ "." ++ (classNames.getD 0 "")) style }
    else m₃
  | none => m₃

/-- One rule as delivered by the css-tree walk (the external CSS grammar
collaborator): the generated prelude text, the generated block text, and
the prelude of the enclosing media at-rule when the rule is nested in one. -/
structure CssRule where
  prelude : String
  block : String
  media : Option String
deriving Repr

/-- Strip a leading opening brace and a trailing closing brace from the
generated block text, then trim (the `replace` of the block anchors). -/
def stripBlockBraces (s : String) : String :=
  let cs := s.data
  let cs₁ := match cs with
    | '{' :: r => r
    | r => r
  let cs₂ := match cs₁.reverse with
    | '}' :: r => r.reverse
    | _ => cs₁
  jsTrim (String.mk cs₂)

/-- Process one rule (`processRule`): parse its declaration block, skip the
rule when nothing converted, wrap under the media key when one was
synthesized, and register the style against every comma-separated
selector. -/
def processRule (styleMap : StyleMap) (selectorText declBlockText : String)
    (mediaKey : Option String) : StyleMap :=
  let declText := stripBlockBraces declBlockText
  let style := parseDeclarationBlock declText
  if style.isEmpty then styleMap
  else
    let style :=
      match mediaKey with
      | some mk => [(mk, JsVal.obj style)]
      | none => style
    let selectors := (jsSplitOn ',' selectorText).map jsTrim
    selectors.foldl (fun m sel => addToStyleMap m sel style) styleMap

/-- The walk's visit of one rule: a rule nested in a media at-rule gets the
key synthesized from the media prelude (which is `none` for unrecognized
media text), others get no media key. -/
def processSheetRule (m : StyleMap) (r : CssRule) : StyleMap :=
  match r.media with
  | some mediaText => processRule m r.prelude r.block (convertMediaQuery mediaText)
  | none => processRule m r.prelude r.block none

/-- Parse a stylesheet into a style map (`parseCssToReactPdf`): the css-tree
walk enumerates the rules in source order. -/
def parseCssToReactPdf (rules : List CssRule) : StyleMap :=
  rules.foldl processSheetRule emptyStyleMap

/-- Get styles for an element by tag name and class list
(`getStylesForElement`): overlay the tag bucket entry, then each class
bucket entry in class-list order, then each tag.class bucket entry in
class-list order. -/
def getStylesForElement (styleMap : StyleMap) (tagName : String)
    (classList : List String) : StyleObj :=
  let tagLower := jsToLower tagName
  let merged : StyleObj := []
  let merged :=
    match jsLookup styleMap.byTag tagLower with
    | some e => spreadObj merged e
    | none => merged
  let merged :=
    classList.foldl
      (fun acc className =>
        match jsLookup styleMap.byClass className with
        | some e => spreadObj acc e
        | none => acc)
      merged
  classList.foldl
    (fun acc className =>
      match jsLookup styleMap.byTagClass (tagLower ++ "." ++ className) with
      | some e => spreadObj acc e
      | none => acc)
    merged

/-- `DEFAULT_STYLES`: built-in fallbacks when the CSS defines nothing. -/
def DEFAULT_STYLES : List (String × StyleObj) :=
  [("p", [("textAlign", .str "justify"), ("marginBottom", .num 0), ("marginTop", .num 0)]),
   ("blockquote", [("marginLeft", .num (33 / 2)), ("marginRight", .num (33 / 2)),
                   ("marginTop", .num 11), ("marginBottom", .num 11)]),
   ("h1", [("fontSize", .num 22), ("fontWeight", .str "bold"),
           ("marginTop", .num (33 / 2)), ("marginBottom", .num 11)]),
   ("h2", [("fontSize", .num 18), ("fontWeight", .str "bold"),
           ("marginTop", .num 14), ("marginBottom", .num 8)]),
   ("h3", [("fontSize", .num 14), ("fontWeight", .str "bold"),
           ("marginTop", .num 11), ("marginBottom", .num 6)]),
   ("h4", [("fontSize", .num 12), ("fontWeight", .str "bold"),
           ("marginTop", .num 8), ("marginBottom", .num 4)]),
   ("em", [("fontStyle", .str "italic")]),
   ("i", [("fontStyle", .str "italic")]),
   ("strong", [("fontWeight", .str "bold")]),
   ("b", [("fontWeight", .str "bold")])]

/-- Get styles with fallbacks to defaults (`getStylesWithDefaults`): the
default entry for the lowercased tag (empty when absent) spread-overlaid by
the CSS-derived styles. -/
def getStylesWithDefaults (styleMap : StyleMap) (tagName : String)
    (classList : List String) : StyleObj :=
  let fromCss := getStylesForElement styleMap tagName classList
  let defaults := (jsLookup DEFAULT_STYLES (jsToLower tagName)).getD []
  spreadObj (spreadObj [] defaults) fromCss

-- =========================================================================
-- MarkupTreeBuilder (`src/unnamed/part_000`): content nodes, text cleaning,
-- and the stack-based tolerant HTML parser
-- =========================================================================

/-- A node of the parsed content tree (`ContentNode`): a text node carries a
tag name (for style lookup), class names and cleaned text; a container
carries its ordered children. -/
inductive ContentNode where
  | text (tagName : String) (classNames : List String) (content : String)
  | container (tagName : String) (classNames : List String) (children : List ContentNode)
deriving Repr

namespace Epub

/-- `CONTAINER_TAGS`: container elements that preserve structure. -/
def CONTAINER_TAGS : List String :=
  ["div", "section", "article", "blockquote", "aside", "nav",
   "header", "footer", "main", "figure", "figcaption"]

/-- `TEXT_TAGS`: text elements with readable content (headings excluded;
they are extracted separately as the chapter title). -/
def TEXT_TAGS : List String := ["p", "span", "li"]

/-- `VOID_TAGS`: self-closing tags that are skipped. -/
def VOID_TAGS : List String :=
  ["br", "hr", "img", "input", "meta", "link", "area", "base",
   "col", "embed", "param", "source", "track", "wbr"]

/-- Tags whose entire content is skipped: `script`, `style`, `head`, and
headings (extracted separately as title or author). -/
def SKIP_TAGS : List String :=
  ["script", "style", "head", "h1", "h2", "h3", "h4", "h5", "h6"]

/-- Global replace driven by a matcher `step`; on a match the replacement
is emitted and scanning resumes after the consumed text, otherwise the
character is copied (fueled; each step consumes at least one character). -/
def globalReplace (step : List Char → Option (List Char × List Char)) :
    ℕ → List Char → List Char
  | 0, cs => cs
  | _, [] => []
  | f + 1, c :: cs =>
    match step (c :: cs) with
    | some (rep, rest) => rep ++ globalReplace step f rest
    | none => c :: globalReplace step f cs

/-- Matcher for a literal pattern. -/
def litStep (pat rep : List Char) (cs : List Char) : Option (List Char × List Char) :=
  if litPrefix pat cs then some (rep, cs.drop pat.length) else none

/-- Global replace of a literal pattern. -/
def replaceLit (pat rep : String) (cs : List Char) : List Char :=
  globalReplace (litStep pat.data rep.data) cs.length cs

/-- Single-pass automaton for the global replace of tag-like substrings
(a `<`, at least one character other than `>`, then `>`) by one space.
The second argument buffers, in reverse, the text after a pending `<`. -/
def stripTagsGo : List Char → Option (List Char) → List Char
  | [], none => []
  | [], some buf => '<' :: buf.reverse
  | c :: cs, none =>
    if c = '<' then stripTagsGo cs (some [])
    else c :: stripTagsGo cs none
  | c :: cs, some buf =>
    if c = '>' then
      match buf with
      | [] => '<' :: '>' :: stripTagsGo cs none
      | _ => ' ' :: stripTagsGo cs none
    else stripTagsGo cs (some (c :: buf))

def stripTags (cs : List Char) : List Char := stripTagsGo cs none

def isHexDigitC (c : Char) : Bool :=
  isDigitC c || ('a' ≤ c && c ≤ 'f') || ('A' ≤ c && c ≤ 'F')

def hexDigitVal (c : Char) : ℕ :=
  if isDigitC c then c.toNat - 48
  else if 'a' ≤ c && c ≤ 'f' then c.toNat - 87 else c.toNat - 55

def hexOfDigits (ds : List Char) : ℕ := ds.foldl (fun a c => a * 16 + hexDigitVal c) 0

/-- Matcher for a decimal character reference `&#...;`.  `fromCharCode`
takes the code modulo 2 to the 16; a code landing in the surrogate range,
which cannot occur in scalar-value text, falls back to NUL. -/
def decEntityStep (cs : List Char) : Option (List Char × List Char) :=
  match cs with
  | '&' :: '#' :: r =>
    let ds := r.takeWhile (isDigitC ·)
    if ds.isEmpty then none
    else
      match r.drop ds.length with
      | ';' :: rest => some ([Char.ofNat (natOfDigits ds % 65536)], rest)
      | _ => none
  | _ => none

/-- Matcher for a hexadecimal character reference (case-insensitive). -/
def hexEntityStep (cs : List Char) : Option (List Char × List Char) :=
  match cs with
  | '&' :: '#' :: x :: r =>
    if x = 'x' || x = 'X' then
      let ds := r.takeWhile isHexDigitC
      if ds.isEmpty then none
      else
        match r.drop ds.length with
        | ';' :: rest => some ([Char.ofNat (hexOfDigits ds % 65536)], rest)
        | _ => none
    else none
  | _ => none

/-- Clean text (`cleanText`): strip tag-like substrings, decode the fixed
entity set and numeric and hex character references, collapse whitespace
runs, trim. -/
def cleanText (html : List Char) : List Char :=
  let s := stripTags html
  let s := replaceLit "&nbsp;" " " s
  let s := replaceLit "&amp;" "&" s
  let s := replaceLit "&lt;" "<" s
  let s := replaceLit "&gt;" ">" s
  let s := replaceLit "&quot;" "\"" s
  let s := replaceLit "&#39;" (String.mk [Char.ofNat 39]) s
  let s := replaceLit "&apos;" (String.mk [Char.ofNat 39]) s
  let s := globalReplace decEntityStep s.length s
  let s := globalReplace hexEntityStep s.length s
  let s := replaceRuns (jsWs ·) ' ' s.length s
  jsTrimL s

def isQuoteC (c : Char) : Bool := c = '"' || c = Char.ofNat 39

/-- Matcher for the class-attribute regex: `class=`, a quote, a non-empty
run without quotes, a quote (case-insensitive on the literal). -/
def classAttrStep (cs : List Char) : Option (List Char) :=
  if ciPrefix "class=".data cs then
    match cs.drop 6 with
    | q :: r =>
      if isQuoteC q then
        let run := r.takeWhile (fun c => !(isQuoteC c))
        if run.isEmpty then none
        else
          match r.drop run.length with
          | q₂ :: _ => if isQuoteC q₂ then some run else none
          | [] => none
      else none
    | [] => none
  else none

/-- Extract class names from an HTML attributes string
(`extractClassNames`). -/
def extractClassNames (attributes : List Char) : List String :=
  match findMap classAttrStep attributes with
  | none => []
  | some run => ((splitWsL run).map String.mk).filter (fun c => c.length > 0)

/-- The part of a tokenizer match after `<` and the optional slash: a
non-empty word-run tag name, an attribute run without `>`, then `>`.  The
reported length counts the `<`, the slash when present, the name, the
attributes and the `>`. -/
def tagStepCore (closing : Bool) (r : List Char) :
    Option (Bool × List Char × List Char × ℕ) :=
  let name := r.takeWhile (isWordC ·)
  if name.isEmpty then none
  else
    let afterName := r.drop name.length
    let attrs := afterName.takeWhile (fun c => c ≠ '>')
    match afterName.drop attrs.length with
    | '>' :: _ =>
      some (closing, name, attrs,
        1 + (if closing then 1 else 0) + name.length + attrs.length + 1)
    | _ => none

/-- One tokenizer match: the regex `<`, optional slash, word-run tag name,
attribute run without `>`, then `>`. -/
def tagStep (cs : List Char) : Option (Bool × List Char × List Char × ℕ) :=
  match cs with
  | '<' :: '/' :: r₂ => tagStepCore true r₂
  | '<' :: r => tagStepCore false r
  | _ => none

/-- One match of the tag tokenizer. -/
structure TagMatch where
  idx : ℕ
  len : ℕ
  closing : Bool
  name : List Char
  attrs : List Char
deriving Repr

/-- Leftmost tag match in a suffix, indices counted from `i`. -/
def findTagFrom : List Char → ℕ → Option TagMatch
  | [], _ => none
  | c :: cs, i =>
    match tagStep (c :: cs) with
    | some (cl, nm, a, ln) => some ⟨i, ln, cl, nm, a⟩
    | none => findTagFrom cs (i + 1)

/-- Leftmost tag match at or after `pos` (the tokenizer regex `exec` with
`lastIndex = pos`). -/
def findTag (html : List Char) (pos : ℕ) : Option TagMatch :=
  findTagFrom (html.drop pos) pos

/-- Leftmost occurrence of a pattern in a suffix (relative index). -/
def findCloseFrom (pat : List Char) : List Char → ℕ → Option ℕ
  | [], _ => none
  | c :: cs, i => if ciPrefix pat (c :: cs) then some i else findCloseFrom pat cs (i + 1)

/-- Position just after the case-insensitive close tag of a skipped element,
searched from `fromIdx` (the skip-forward of script, style, head and
headings). -/
def findCloseTag (html : List Char) (fromIdx : ℕ) (tag : List Char) : Option ℕ :=
  let pat := '<' :: '/' :: (tag ++ ['>'])
  (findCloseFrom pat (html.drop fromIdx) 0).map (fun rel => fromIdx + rel + pat.length)

/-- JS `slice(a, b)` on a character list. -/
def sliceL (cs : List Char) (a b : ℕ) : List Char := (cs.drop a).take (b - a)

/-- A stack frame of the tokenizer loop: tag name, classes, collected child
nodes (written but, as in the source, never read back) and the offset where
the element's content starts. -/
structure Frame where
  tagName : String
  classNames : List String
  children : List ContentNode
  startIndex : ℕ

/-- The text-before-a-tag handling of the loop: text between `lo` and `hi`
becomes a top-level span text node when it cleans to something non-empty
and no frame is open. -/
def emitText (html : List Char) (lo hi : ℕ) (stack : List Frame)
    (children : List ContentNode) : List ContentNode :=
  if lo < hi then
    if (!(cleanText (sliceL html lo hi)).isEmpty) && stack.isEmpty then
      children ++ [.text "span" [] (String.mk (cleanText (sliceL html lo hi)))]
    else children
  else children

/-- The remaining-text handling after the last tag. -/
def emitTail (html : List Char) (lastIndex : ℕ) (stack : List Frame)
    (children : List ContentNode) : List ContentNode :=
  if lastIndex < html.length then
    if (!(cleanText (html.drop lastIndex)).isEmpty) && stack.isEmpty then
      children ++ [.text "span" [] (String.mk (cleanText (html.drop lastIndex)))]
    else children
  else children

/-- Is the word `n` present right here followed by a word boundary? -/
def nameBoundary (n : String) (r : List Char) : Bool :=
  ciPrefix n.data r &&
    (match r.drop n.data.length with
     | [] => true
     | c :: _ => !(isWordC c))

/-- Matcher for a nested container-starting tag `div`, `blockquote`,
`section` or `p` (case-insensitive, word boundary). -/
def nestedTagStep (cs : List Char) : Option Unit :=
  match cs with
  | '<' :: r =>
    if nameBoundary "div" r || nameBoundary "blockquote" r ||
        nameBoundary "section" r || nameBoundary "p" r then some ()
    else none
  | _ => none

def hasNestedTags (cs : List Char) : Bool := (findMap nestedTagStep cs).isSome

/-- Matcher for a heading tag `<h1>` to `<h6>` (case-insensitive, word
boundary after the digit). -/
def headingStep (cs : List Char) : Option Unit :=
  match cs with
  | '<' :: h :: d :: r =>
    if lowerC h = 'h' && ('1' ≤ d && d ≤ '6') &&
        (match r with
         | [] => true
         | c :: _ => !(isWordC c)) then some ()
    else none
  | _ => none

def hasSkippedHeading (cs : List Char) : Bool := (findMap headingStep cs).isSome

mutual

/-- The tokenizer loop of `parseElement`: walk the tag matches from
`lastIndex`, maintaining the stack of open frames and the top-level
children collected so far.  The fuel argument only bounds the recursion
depth; `parseFuel` below always suffices. -/
def parseLoopF : ℕ → List Char → ℕ → List Frame → List ContentNode →
    Option (List ContentNode)
  | 0, _, _, _, _ => none
  | f + 1, html, lastIndex, stack, children =>
    match findTag html lastIndex with
    | none => some (emitTail html lastIndex stack children)
    | some m =>
      if VOID_TAGS.contains (String.mk (lowerL m.name)) then
        parseLoopF f html (m.idx + m.len) stack
          (emitText html lastIndex m.idx stack children)
      else if (!m.closing) && SKIP_TAGS.contains (String.mk (lowerL m.name)) then
        match findCloseTag html (m.idx + m.len) (lowerL m.name) with
        | some j => parseLoopF f html j stack
            (emitText html lastIndex m.idx stack children)
        | none => parseLoopF f html (m.idx + m.len) stack
            (emitText html lastIndex m.idx stack children)
      else if m.closing then
        match stack with
        | [] => parseLoopF f html (m.idx + m.len) []
            (emitText html lastIndex m.idx stack children)
        | fr :: rest =>
          if fr.tagName = String.mk (lowerL m.name) then
            match parseElementContentF f (sliceL html fr.startIndex m.idx)
                fr.tagName fr.classNames with
            | none => none
            | some node =>
              match rest with
              | [] => parseLoopF f html (m.idx + m.len) []
                  (emitText html lastIndex m.idx stack children ++ [node])
              | g :: gs =>
                parseLoopF f html (m.idx + m.len)
                  ({ g with children := g.children ++ [node] } :: gs)
                  (emitText html lastIndex m.idx stack children)
          else parseLoopF f html (m.idx + m.len) (fr :: rest)
            (emitText html lastIndex m.idx stack children)
      else
        if endsWithL ['/'] (jsTrimL m.attrs) then
          parseLoopF f html (m.idx + m.len) stack
            (emitText html lastIndex m.idx stack children)
        else if CONTAINER_TAGS.contains (String.mk (lowerL m.name)) ||
            TEXT_TAGS.contains (String.mk (lowerL m.name)) then
          parseLoopF f html (m.idx + m.len)
            (⟨String.mk (lowerL m.name), extractClassNames m.attrs, [],
              m.idx + m.len⟩ :: stack)
            (emitText html lastIndex m.idx stack children)
        else
          parseLoopF f html (m.idx + m.len) stack
            (emitText html lastIndex m.idx stack children)

/-- `parseElement`: run the tokenizer loop on the fragment and wrap the
collected children in a container node. -/
def parseElementF : ℕ → List Char → String → List String → Option ContentNode
  | 0, _, _, _ => none
  | f + 1, html, tagName, classNames =>
    match parseLoopF f html 0 [] [] with
    | none => none
    | some ch => some (.container tagName classNames ch)

/-- `parseElementContent`: a text tag with no nested container-starting tag
becomes a text node of the cleaned slice; otherwise the slice is re-parsed,
and a childless result with non-heading text degrades to a text node. -/
def parseElementContentF : ℕ → List Char → String → List String → Option ContentNode
  | 0, _, _, _ => none
  | f + 1, innerHtml, tagName, classNames =>
    if TEXT_TAGS.contains tagName && !(hasNestedTags innerHtml) then
      some (.text tagName classNames (String.mk (cleanText innerHtml)))
    else
      match parseElementF f innerHtml tagName classNames with
      | none => none
      | some parsed =>
        match parsed with
        | .container t c ch =>
          if ch.isEmpty && !(hasSkippedHeading innerHtml) &&
              !(cleanText innerHtml).isEmpty then
            some (.text t c (String.mk (cleanText innerHtml)))
          else some parsed
        | other => some other

end

/-- Fuel budget by input length; sufficiency is proved below. -/
def fuelC (n : ℕ) : ℕ := n * (n + 6)

/-- Fuel that always suffices for `parseElementF` on `n` characters. -/
def parseFuel (n : ℕ) : ℕ := fuelC n + n + 3

/-- Total `parseElement`: the fueled parser at its sufficient budget (the
default is never used, as proved below). -/
def parseElement (html : String) (tagName : String) (classNames : List String) :
    ContentNode :=
  (parseElementF (parseFuel html.data.length) html.data tagName classNames).getD
    (.container tagName classNames [])

end Epub

/-- Overlay an optional bucket entry: absent entries contribute nothing,
present entries are spread over the accumulator (used to state the lookup
overlay order). -/
def spreadOpt (acc : StyleObj) : Option StyleObj → StyleObj
  | some e => spreadObj acc e
  | none => acc

/-- The value `mergeStep` stores for an entry `(k, v)` processed on top of
`acc`. -/
def mergeVal (acc : StyleObj) (k : String) (v : JsVal) : JsVal :=
  if jsStartsWith "@media" k && isObjLike v then
    .obj (spreadObj (mediaMergeBase (jsLookup acc k)) (jsSpreadable v))
  else v

/-- The media-valued entries of a well-formed style object are objects with
duplicate-free keys. -/
def valMediaOk : JsVal → Bool
  | .obj e => decide (NoDupKeys e)
  | _ => false

/-- A style object as the program builds them: duplicate-free keys, and any
media-prefixed key holds an object with duplicate-free keys. -/
def WFStyle (o : StyleObj) : Prop :=
  NoDupKeys o ∧
    ∀ p ∈ o, (jsStartsWith "@media" p.1 && isObjLike p.2) = true → valMediaOk p.2 = true

instance (o : StyleObj) : Decidable (WFStyle o) := by
  unfold WFStyle; infer_instance

-- =========================================================================
-- Association-list lemmas for JS objects
-- =========================================================================

theorem objKeys_cons {β : Type} (k : String) (v : β) (t : List (String × β)) :
    objKeys ((k, v) :: t) = k :: objKeys t := rfl

theorem spreadObj_cons {β : Type} (a : List (String × β)) (p : String × β)
    (b : List (String × β)) : spreadObj a (p :: b) = spreadObj (jsSet a p.1 p.2) b := rfl

theorem spreadObj_nil {β : Type} (a : List (String × β)) : spreadObj a [] = a := rfl

theorem jsLookup_jsSet_self {β : Type} (m : List (String × β)) (k : String) (v : β) :
    jsLookup (jsSet m k v) k = some v := by
  induction m with
  | nil => simp [jsSet, jsLookup]
  | cons p t ih =>
    obtain ⟨k₁, v₁⟩ := p
    by_cases h : k₁ = k <;> simp [jsSet, jsLookup, h, ih]

theorem jsLookup_jsSet_ne {β : Type} (m : List (String × β)) {j k : String} (v : β)
    (h : j ≠ k) : jsLookup (jsSet m j v) k = jsLookup m k := by
  induction m with
  | nil => simp [jsSet, jsLookup, h]
  | cons p t ih =>
    obtain ⟨k₁, v₁⟩ := p
    by_cases h₁ : k₁ = j <;> simp [jsSet, jsLookup, h₁, h, ih]

theorem jsSet_jsSet_self {β : Type} (m : List (String × β)) (k : String) (v w : β) :
    jsSet (jsSet m k v) k w = jsSet m k w := by
  induction m with
  | nil => simp [jsSet]
  | cons p t ih =>
    obtain ⟨k₁, v₁⟩ := p
    by_cases h : k₁ = k <;> simp [jsSet, h, ih]

theorem jsSet_eq_of_lookup {β : Type} {m : List (String × β)} {k : String} {v : β}
    (h : jsLookup m k = some v) : jsSet m k v = m := by
  induction m with
  | nil => simp [jsLookup] at h
  | cons p t ih =>
    obtain ⟨k₁, v₁⟩ := p
    by_cases h₁ : k₁ = k
    · subst h₁
      simp [jsLookup] at h
      simp [jsSet, h]
    · simp [jsLookup, h₁] at h
      simp [jsSet, h₁, ih h]

theorem objKeys_jsSet {β : Type} (m : List (String × β)) (k : String) (v : β) :
    objKeys (jsSet m k v) =
      if k ∈ objKeys m then objKeys m else objKeys m ++ [k] := by
  induction m with
  | nil => simp [jsSet, objKeys]
  | cons p t ih =>
    obtain ⟨k₁, v₁⟩ := p
    by_cases h : k₁ = k
    · subst h
      simp [jsSet, objKeys_cons]
    · have hne : k ≠ k₁ := fun hh => h hh.symm
      have hred : jsSet ((k₁, v₁) :: t) k v = (k₁, v₁) :: jsSet t k v := by
        simp [jsSet, h]
      by_cases hm : k ∈ objKeys t
      · rw [hred, objKeys_cons, ih, if_pos hm, objKeys_cons,
          if_pos (by simp [hm])]
      · rw [hred, objKeys_cons, ih, if_neg hm, objKeys_cons,
          if_neg (by simp [hm, hne]), List.cons_append]

theorem noDupKeys_jsSet {β : Type} {m : List (String × β)} (k : String) (v : β)
    (h : NoDupKeys m) : NoDupKeys (jsSet m k v) := by
  unfold NoDupKeys at h ⊢
  rw [objKeys_jsSet]
  by_cases hm : k ∈ objKeys m
  · simpa [hm] using h
  · simp [hm, List.nodup_append, h]

theorem noDupKeys_spreadObj {β : Type} {a : List (String × β)} (b : List (String × β))
    (h : NoDupKeys a) : NoDupKeys (spreadObj a b) := by
  induction b generalizing a with
  | nil => simpa [spreadObj] using h
  | cons p t ih =>
    rw [spreadObj_cons]
    exact ih (noDupKeys_jsSet _ _ h)

theorem jsLookup_spreadObj_not_mem {β : Type} {b : List (String × β)}
    (a : List (String × β)) {k : String} (h : k ∉ objKeys b) :
    jsLookup (spreadObj a b) k = jsLookup a k := by
  induction b generalizing a with
  | nil => simp [spreadObj]
  | cons p t ih =>
    obtain ⟨k₁, v₁⟩ := p
    rw [objKeys_cons] at h
    simp at h
    rw [spreadObj_cons, ih _ h.2, jsLookup_jsSet_ne _ _ (fun hh => h.1 hh.symm)]

theorem jsLookup_eq_some_of_mem_nodup {β : Type} {b : List (String × β)}
    {k : String} {v : β} (hnd : NoDupKeys b) (h : (k, v) ∈ b) :
    jsLookup b k = some v := by
  induction b with
  | nil => simp at h
  | cons p t ih =>
    obtain ⟨k₁, v₁⟩ := p
    unfold NoDupKeys at hnd
    rw [objKeys_cons] at hnd
    rcases List.nodup_cons.mp hnd with ⟨hk₁, hndt⟩
    rcases List.mem_cons.mp h with h₁ | h₁
    · obtain ⟨hk, hv⟩ := Prod.mk.injEq .. ▸ h₁
      simp [jsLookup, hk.symm, hv]
    · by_cases hk : k₁ = k
      · exact absurd (hk ▸ List.mem_map_of_mem Prod.fst h₁) hk₁
      · simpa [jsLookup, hk] using ih hndt h₁

theorem jsLookup_mem_keys {β : Type} {m : List (String × β)} {k : String} {v : β}
    (h : jsLookup m k = some v) : k ∈ objKeys m := by
  induction m with
  | nil => simp [jsLookup] at h
  | cons p t ih =>
    obtain ⟨k₁, v₁⟩ := p
    by_cases hk : k₁ = k
    · simp [objKeys_cons, hk]
    · simp [jsLookup, hk] at h
      rw [objKeys_cons]
      exact List.mem_cons_of_mem _ (ih h)

theorem jsLookup_spreadObj_of_nodup {β : Type} {b : List (String × β)}
    (a : List (String × β)) {k : String} {v : β} (hnd : NoDupKeys b)
    (h : jsLookup b k = some v) : jsLookup (spreadObj a b) k = some v := by
  induction b generalizing a with
  | nil => simp [jsLookup] at h
  | cons p t ih =>
    obtain ⟨k₁, v₁⟩ := p
    unfold NoDupKeys at hnd
    rw [objKeys_cons] at hnd
    rcases List.nodup_cons.mp hnd with ⟨hk₁, hndt⟩
    by_cases hk : k₁ = k
    · subst hk
      simp [jsLookup] at h
      subst h
      rw [spreadObj_cons, jsLookup_spreadObj_not_mem _ hk₁]
      exact jsLookup_jsSet_self ..
    · simp [jsLookup, hk] at h
      rw [spreadObj_cons]
      exact ih _ hndt h

theorem spreadObj_fixed {β : Type} {n b : List (String × β)}
    (h : ∀ p ∈ b, jsLookup n p.1 = some p.2) : spreadObj n b = n := by
  induction b with
  | nil => simp [spreadObj]
  | cons p t ih =>
    rw [spreadObj_cons, jsSet_eq_of_lookup (h p (by simp))]
    exact ih (fun q hq => h q (by simp [hq]))

theorem jsSet_append_of_not_mem {β : Type} {a : List (String × β)} {k : String}
    (v : β) (h : k ∉ objKeys a) : jsSet a k v = a ++ [(k, v)] := by
  induction a with
  | nil => simp [jsSet]
  | cons p t ih =>
    obtain ⟨k₁, v₁⟩ := p
    rw [objKeys_cons] at h
    simp at h
    have hne : ¬k₁ = k := fun hh => h.1 hh.symm
    simp [jsSet, hne, ih h.2]

theorem spreadObj_append_of_nodup {β : Type} {b : List (String × β)}
    (a : List (String × β)) (h : NoDupKeys (a ++ b)) : spreadObj a b = a ++ b := by
  induction b generalizing a with
  | nil => simp [spreadObj]
  | cons p t ih =>
    obtain ⟨k, v⟩ := p
    unfold NoDupKeys at h
    have hkeys : objKeys (a ++ (k, v) :: t) = objKeys a ++ k :: objKeys t := by
      simp [objKeys]
    rw [hkeys] at h
    have hk : k ∉ objKeys a := by
      intro hm
      exact (List.disjoint_of_nodup_append h hm) (by simp)
    rw [spreadObj_cons]
    show spreadObj (jsSet a k v) t = a ++ (k, v) :: t
    rw [jsSet_append_of_not_mem v hk, ih (a ++ [(k, v)])]
    · simp
    · unfold NoDupKeys
      have hkeys₂ : objKeys (a ++ [(k, v)] ++ t) = objKeys a ++ k :: objKeys t := by
        simp [objKeys]
      rw [hkeys₂]
      exact h

theorem spreadObj_nil_of_nodup {β : Type} {m : List (String × β)}
    (h : NoDupKeys m) : spreadObj [] m = m := by
  have hnil : NoDupKeys (([] : List (String × β)) ++ m) := by simpa using h
  simpa using spreadObj_append_of_nodup [] hnil

-- =========================================================================
-- Merge lemmas
-- =========================================================================

theorem jsLookup_mergeStep_ne (acc : StyleObj) (p : String × JsVal) {k : String}
    (h : p.1 ≠ k) : jsLookup (mergeStep acc p) k = jsLookup acc k := by
  unfold mergeStep
  split <;> exact jsLookup_jsSet_ne _ _ h

theorem jsLookup_mergeStep_self (acc : StyleObj) (k : String) (v : JsVal) :
    jsLookup (mergeStep acc (k, v)) k = some (mergeVal acc k v) := by
  unfold mergeStep mergeVal
  split <;> exact jsLookup_jsSet_self ..

theorem noDupKeys_mergeStep {acc : StyleObj} (p : String × JsVal)
    (h : NoDupKeys acc) : NoDupKeys (mergeStep acc p) := by
  unfold mergeStep
  split <;> exact noDupKeys_jsSet _ _ h

theorem noDupKeys_foldl_mergeStep {acc : StyleObj} (inc : StyleObj)
    (h : NoDupKeys acc) : NoDupKeys (List.foldl mergeStep acc inc) := by
  induction inc generalizing acc with
  | nil => simpa using h
  | cons p t ih => exact ih (noDupKeys_mergeStep p h)

theorem jsLookup_foldl_mergeStep_not_mem {inc : StyleObj} (acc : StyleObj)
    {k : String} (h : k ∉ objKeys inc) :
    jsLookup (List.foldl mergeStep acc inc) k = jsLookup acc k := by
  induction inc generalizing acc with
  | nil => simp
  | cons p t ih =>
    obtain ⟨k₁, v₁⟩ := p
    rw [objKeys_cons] at h
    simp at h
    rw [List.foldl_cons, ih _ h.2,
      jsLookup_mergeStep_ne _ _ (fun hh => h.1 hh.symm)]

theorem mergeVal_ext {acc acc₂ : StyleObj} {k : String} {v : JsVal}
    (h : jsLookup acc₂ k = jsLookup acc k) : mergeVal acc₂ k v = mergeVal acc k v := by
  unfold mergeVal
  rw [h]

theorem jsLookup_foldl_mergeStep {inc : StyleObj} (acc : StyleObj) {k : String}
    {v : JsVal} (hnd : NoDupKeys inc) (h : (k, v) ∈ inc) :
    jsLookup (List.foldl mergeStep acc inc) k = some (mergeVal acc k v) := by
  induction inc generalizing acc with
  | nil => simp at h
  | cons p t ih =>
    obtain ⟨k₁, v₁⟩ := p
    unfold NoDupKeys at hnd
    rw [objKeys_cons] at hnd
    rcases List.nodup_cons.mp hnd with ⟨hk₁, hndt⟩
    rcases List.mem_cons.mp h with h₁ | h₁
    · obtain ⟨hk, hv⟩ := Prod.mk.injEq .. ▸ h₁
      subst hk hv
      rw [List.foldl_cons,
        jsLookup_foldl_mergeStep_not_mem _ (by simpa [objKeys] using hk₁),
        jsLookup_mergeStep_self]
    · by_cases hk : k₁ = k
      · exact absurd (hk ▸ List.mem_map_of_mem Prod.fst h₁) hk₁
      · rw [List.foldl_cons, ih _ hndt h₁,
          mergeVal_ext (jsLookup_mergeStep_ne acc (k₁, v₁) hk)]

theorem foldl_mergeStep_fixed {M : StyleObj} {inc : StyleObj}
    (h : ∀ p ∈ inc, mergeStep M p = M) : List.foldl mergeStep M inc = M := by
  induction inc with
  | nil => simp
  | cons p t ih =>
    rw [List.foldl_cons, h p (by simp)]
    exact ih (fun q hq => h q (by simp [hq]))

theorem noDupKeys_mergeStyles (x : Option StyleObj) (s : StyleObj) :
    NoDupKeys (mergeStyles x s) := by
  unfold mergeStyles
  have hnil : NoDupKeys ([] : StyleObj) := by simp [NoDupKeys, objKeys]
  match x with
  | none => exact noDupKeys_spreadObj s hnil
  | some e => exact noDupKeys_foldl_mergeStep s (noDupKeys_spreadObj e hnil)

theorem mergeStep_eq_self_of_lookup {M : StyleObj} {k : String} {v : JsVal}
    (hlook : (jsStartsWith "@media" k && isObjLike v) = true →
      ∃ e n, v = .obj e ∧ jsLookup M k = some (.obj n) ∧
        (∀ q ∈ e, jsLookup n q.1 = some q.2))
    (hplain : (jsStartsWith "@media" k && isObjLike v) = false →
      jsLookup M k = some v) :
    mergeStep M (k, v) = M := by
  unfold mergeStep
  by_cases hc : (jsStartsWith "@media" k && isObjLike v) = true
  · obtain ⟨e, n, hv, hn, hq⟩ := hlook hc
    subst hv
    rw [if_pos hc, hn]
    have hbase : mediaMergeBase (some (JsVal.obj n)) = n := by
      simp [mediaMergeBase, jsFalsy, jsSpreadable]
    rw [hbase]
    show jsSet M k (.obj (spreadObj n (jsSpreadable (.obj e)))) = M
    rw [show jsSpreadable (JsVal.obj e) = e from rfl, spreadObj_fixed hq]
    exact jsSet_eq_of_lookup hn
  · rw [if_neg hc]
    exact jsSet_eq_of_lookup (hplain (by simpa using hc))

/-- Re-merging the same well-formed style into the result of merging it is
the identity: the core of registration idempotence. -/
theorem mergeStyles_absorb (x : Option StyleObj) {s : StyleObj} (hs : WFStyle s) :
    mergeStyles (some (mergeStyles x s)) s = mergeStyles x s := by
  have hndM : NoDupKeys (mergeStyles x s) := noDupKeys_mergeStyles x s
  have hstep : mergeStyles (some (mergeStyles x s)) s =
      List.foldl mergeStep (mergeStyles x s) s := by
    show List.foldl mergeStep (spreadObj [] (mergeStyles x s)) s = _
    rw [spreadObj_nil_of_nodup hndM]
  rw [hstep]
  apply foldl_mergeStep_fixed
  intro p hp
  obtain ⟨k, v⟩ := p
  have hvmem : jsLookup s k = some v := jsLookup_eq_some_of_mem_nodup hs.1 hp
  refine mergeStep_eq_self_of_lookup ?_ ?_
  · intro hc
    have hobj : ∃ e, v = JsVal.obj e ∧ NoDupKeys e := by
      have hval := hs.2 (k, v) hp hc
      cases v with
      | obj e => exact ⟨e, rfl, by simpa [valMediaOk] using hval⟩
      | str a => simp [valMediaOk] at hval
      | num a => simp [valMediaOk] at hval
      | arr a => simp [valMediaOk] at hval
    obtain ⟨e, hv, hnde⟩ := hobj
    subst hv
    have helem : ∀ q ∈ e, jsLookup e q.1 = some q.2 := by
      intro q hq
      exact jsLookup_eq_some_of_mem_nodup hnde (by simpa using hq)
    match x with
    | none =>
      refine ⟨e, e, rfl, ?_, helem⟩
      show jsLookup (spreadObj [] s) k = _
      exact jsLookup_spreadObj_of_nodup _ hs.1 hvmem
    | some e₀ =>
      have hM : jsLookup (mergeStyles (some e₀) s) k =
          some (mergeVal (spreadObj [] e₀) k (.obj e)) :=
        jsLookup_foldl_mergeStep _ hs.1 hp
      rw [mergeVal, if_pos hc] at hM
      refine ⟨e, _, rfl, hM, ?_⟩
      intro q hq
      exact jsLookup_spreadObj_of_nodup _ hnde (helem q hq)
  · intro hc
    match x with
    | none =>
      show jsLookup (spreadObj [] s) k = some v
      exact jsLookup_spreadObj_of_nodup _ hs.1 hvmem
    | some e₀ =>
      have hM : jsLookup (mergeStyles (some e₀) s) k =
          some (mergeVal (spreadObj [] e₀) k v) :=
        jsLookup_foldl_mergeStep _ hs.1 hp
      rwa [mergeVal, if_neg (by simp [hc])] at hM

/-- Registering the same style twice under the same bucket key equals
registering it once. -/
theorem bucketAdd_idem (B : List (String × StyleObj)) (key : String)
    {style : StyleObj} (hs : WFStyle style) :
    bucketAdd (bucketAdd B key style) key style = bucketAdd B key style := by
  unfold bucketAdd
  rw [jsLookup_jsSet_self, mergeStyles_absorb (jsLookup B key) hs,
    jsSet_jsSet_self]

-- =========================================================================
-- Bucket-level characterization of `addToStyleMap`
-- =========================================================================

theorem addToStyleMap_bySelector (map : StyleMap) (sel : String) (style : StyleObj) :
    (addToStyleMap map sel style).bySelector =
      bucketAdd map.bySelector (normalizeSelector sel) style := by
  unfold addToStyleMap
  cases htag : extractTagName (selTarget sel) <;>
    by_cases h₁ : (extractClassNames (selTarget sel)).length = 1 <;>
    by_cases h₀ : (extractClassNames (selTarget sel)).length = 0 <;>
    simp [htag, h₁, h₀]

theorem addToStyleMap_byClass (map : StyleMap) (sel : String) (style : StyleObj) :
    (addToStyleMap map sel style).byClass =
      if (extractClassNames (selTarget sel)).length = 1 then
        bucketAdd map.byClass ((extractClassNames (selTarget sel)).getD 0 "") style
      else map.byClass := by
  unfold addToStyleMap
  cases htag : extractTagName (selTarget sel) <;>
    by_cases h₁ : (extractClassNames (selTarget sel)).length = 1 <;>
    by_cases h₀ : (extractClassNames (selTarget sel)).length = 0 <;>
    simp [htag, h₁, h₀]

theorem addToStyleMap_byTag (map : StyleMap) (sel : String) (style : StyleObj) :
    (addToStyleMap map sel style).byTag =
      match extractTagName (selTarget sel) with
      | some t =>
        if (extractClassNames (selTarget sel)).length = 0 then
          bucketAdd map.byTag t style
        else map.byTag
      | none => map.byTag := by
  unfold addToStyleMap
  cases htag : extractTagName (selTarget sel) <;>
    by_cases h₁ : (extractClassNames (selTarget sel)).length = 1 <;>
    by_cases h₀ : (extractClassNames (selTarget sel)).length = 0 <;>
    simp [htag, h₁, h₀]

theorem addToStyleMap_byTagClass (map : StyleMap) (sel : String) (style : StyleObj) :
    (addToStyleMap map sel style).byTagClass =
      match extractTagName (selTarget sel) with
      | some t =>
        if (extractClassNames (selTarget sel)).length = 1 then
          bucketAdd map.byTagClass
            (t ++ "." ++ ((extractClassNames (selTarget sel)).getD 0 "")) style
        else map.byTagClass
      | none => map.byTagClass := by
  unfold addToStyleMap
  cases htag : extractTagName (selTarget sel) <;>
    by_cases h₁ : (extractClassNames (selTarget sel)).length = 1 <;>
    by_cases h₀ : (extractClassNames (selTarget sel)).length = 0 <;>
    simp [htag, h₁, h₀]

-- =========================================================================
-- Claims C4, C7, C6, C2
-- =========================================================================

/-- C4, counterexample: the claim says the declaration mapper applied to
`font-weight` with value `bold` yields the pair `(fontWeight, "bold")`; on
the code it yields no result, because `fontWeight` is not in the supported
key set. -/
theorem fontWeight_bold_dropped : convertProperty "font-weight" "bold" = none := rfl

/-- C4 (amended): for every raw value, the declaration mapper applied to
`font-weight` returns no result: `fontWeight` is absent from
`SUPPORTED_PROPERTIES` (font properties are deliberately excluded), so the
declaration is rejected before the `font-weight` value handling is ever
reached. -/
theorem fontWeight_always_dropped (v : String) :
    convertProperty "font-weight" v = none := rfl

theorem convertProperty_display (v : String) :
    convertProperty "display" v =
      (if ["inherit", "initial", "unset", "revert"].contains (jsToLower (jsTrim v)) then none
       else if v = "flex" then some (.pair "display" (.str "flex")) else none) := rfl

/-- C7: the declaration mapper applied to `display` returns
`(display, "flex")` exactly for the raw value `flex`, and no result for
every other raw value, including `none`: hiding values are discarded. -/
theorem display_only_flex :
    convertProperty "display" "flex" = some (.pair "display" (.str "flex")) ∧
      ∀ v : String, v ≠ "flex" → convertProperty "display" v = none := by
  refine ⟨rfl, ?_⟩
  intro v hv
  rw [convertProperty_display]
  split
  · rfl
  · simp [hv]

/-- C7, witness: the hiding value `none` is discarded. -/
theorem display_only_flex_witness :
    ("none" : String) ≠ "flex" ∧ convertProperty "display" "none" = none :=
  ⟨by decide, display_only_flex.2 "none" (by decide)⟩

/-- C6: the margin/padding shorthand expands one to four space-separated
tokens into the all-sides / vertical+horizontal / top+horizontal+bottom /
top+right+bottom+left forms, each token independently unit-converted, and
any other arity falls back to a single pair carrying the first token's
converted value; in particular `margin: 1 2 3 4` expands to the four
directional keys in top/right/bottom/left order. -/
theorem convertBoxShorthand_arity_spec :
    (∀ property value : String,
      convertBoxShorthand property value =
        match (jsSplitWs value).map convertUnit with
        | [a] => .pair property a
        | [a, b] => .multiple [(property ++ "Vertical", a), (property ++ "Horizontal", b)]
        | [a, b, c] =>
          .multiple [(property ++ "Top", a), (property ++ "Horizontal", b),
                     (property ++ "Bottom", c)]
        | [a, b, c, d] =>
          .multiple [(property ++ "Top", a), (property ++ "Right", b),
                     (property ++ "Bottom", c), (property ++ "Left", d)]
        | other => .pair property (other.getD 0 (.str ""))) ∧
    convertProperty "margin" "1 2 3 4" =
      some (.multiple [("marginTop", .num 1), ("marginRight", .num 2),
                       ("marginBottom", .num 3), ("marginLeft", .num 4)]) := by
  constructor
  · intro property value
    unfold convertBoxShorthand
    rcases hp : (jsSplitWs value).map convertUnit with _ | ⟨a, _ | ⟨b, _ | ⟨c, _ | ⟨d, _ | ⟨e, t⟩⟩⟩⟩⟩ <;>
      simp [hp]
  · with_unfolding_all rfl

/-- C2: a selector contributes to the by-class bucket only when its target
(the trailing space-separated part) has exactly one class, and to the
by-tag bucket only when the target has a tag name and zero classes;
consequently registering `p.subsq.special` never modifies the by-class
bucket, in particular any existing entry for `.subsq`. -/
theorem addToStyleMap_bucket_guard (map : StyleMap) (sel : String) (style : StyleObj) :
    ((extractClassNames (selTarget sel)).length ≠ 1 →
      (addToStyleMap map sel style).byClass = map.byClass) ∧
    ((extractTagName (selTarget sel) = none ∨ extractClassNames (selTarget sel) ≠ []) →
      (addToStyleMap map sel style).byTag = map.byTag) ∧
    (addToStyleMap map "p.subsq.special" style).byClass = map.byClass := by
  refine ⟨?_, ?_, ?_⟩
  · intro h
    rw [addToStyleMap_byClass, if_neg h]
  · intro h
    rw [addToStyleMap_byTag]
    cases htag : extractTagName (selTarget sel) with
    | none => rfl
    | some t =>
      rcases h with h | h
      · simp [htag] at h
      · have hlen : (extractClassNames (selTarget sel)).length ≠ 0 := by
          simpa [List.length_eq_zero] using h
        simp [hlen]
  · rw [addToStyleMap_byClass, if_neg (by decide)]

/-- C2, witness: registering `p.subsq.special` over an index holding a
single-class entry for `.subsq` leaves the by-class bucket untouched. -/
theorem addToStyleMap_bucket_guard_witness :
    (extractClassNames (selTarget "p.subsq.special")).length ≠ 1 ∧
    (extractTagName (selTarget "p.subsq.special") = none ∨
      extractClassNames (selTarget "p.subsq.special") ≠ []) ∧
    (addToStyleMap
        (parseCssToReactPdf [⟨".subsq", "\x7bcolor:blue\x7d", none⟩])
        "p.subsq.special" [("color", JsVal.str "green")]).byClass =
      (parseCssToReactPdf [⟨".subsq", "\x7bcolor:blue\x7d", none⟩]).byClass := by
  refine ⟨by decide, Or.inr (by decide), ?_⟩
  exact (addToStyleMap_bucket_guard
    (parseCssToReactPdf [⟨".subsq", "\x7bcolor:blue\x7d", none⟩])
    "p.subsq.special" [("color", JsVal.str "green")]).1 (by decide)

-- =========================================================================
-- Claims C1, C3, C9, C10
-- =========================================================================

/-- C1: the style lookup is exactly the shallow overlay, in order, of the
tag bucket entry for the lowercased tag, each class bucket entry in class
list order, then each tag.class bucket entry in class list order, later
keys winning; and on the index built from `p`, `.lead` and `p.lead` color
rules, looking up tag `p` with class `lead` yields the tag.class color
`green`. -/
theorem getStylesForElement_overlay_spec :
    (∀ (map : StyleMap) (tagName : String) (classList : List String),
      getStylesForElement map tagName classList =
        List.foldl spreadOpt
          (List.foldl spreadOpt
            (spreadOpt [] (jsLookup map.byTag (jsToLower tagName)))
            (classList.map (fun c => jsLookup map.byClass c)))
          (classList.map (fun c =>
            jsLookup map.byTagClass (jsToLower tagName ++ "." ++ c)))) ∧
    getStylesForElement
      (parseCssToReactPdf
        [⟨"p", "\x7bcolor:red\x7d", none⟩,
         ⟨".lead", "\x7bcolor:blue\x7d", none⟩,
         ⟨"p.lead", "\x7bcolor:green\x7d", none⟩])
      "p" ["lead"] = [("color", JsVal.str "green")] := by
  constructor
  · intro map tagName classList
    unfold getStylesForElement
    rw [List.foldl_map, List.foldl_map]
    rfl
  · rfl

/-- C3, counterexample: the claim says a rule under media text matching none
of the five patterns is dropped from every bucket; on the code,
`convertMediaQuery "print"` is `none` and the rule is registered
unconditionally, so the tag bucket is not empty. -/
theorem unrecognized_media_rule_registered :
    convertMediaQuery "print" = none ∧
    (parseCssToReactPdf [⟨"p", "\x7bcolor:red\x7d", some "print"⟩]).byTag =
      [("p", [("color", JsVal.str "red")])] ∧
    (parseCssToReactPdf [⟨"p", "\x7bcolor:red\x7d", some "print"⟩]).byTag ≠ [] := by
  refine ⟨rfl, rfl, ?_⟩
  intro h
  rw [show (parseCssToReactPdf [⟨"p", "\x7bcolor:red\x7d", some "print"⟩]).byTag =
    [("p", [("color", JsVal.str "red")])] from rfl] at h
  exact List.noConfusion h

/-- C3 (amended): a rule nested in an @media context whose media text
matches none of the five recognized condition patterns is registered
unconditionally, exactly as if it stood outside media: no media key is
synthesized and its declarations are merged as plain entries. -/
theorem unrecognized_media_processed_unconditionally
    (map : StyleMap) (sel block mediaText : String)
    (h : convertMediaQuery mediaText = none) :
    processSheetRule map ⟨sel, block, some mediaText⟩ =
      processSheetRule map ⟨sel, block, none⟩ := by
  show processRule map sel block (convertMediaQuery mediaText) =
    processRule map sel block none
  rw [h]

/-- C3, witness: the media text `print` matches no pattern, and the rule is
then processed exactly like a media-free rule. -/
theorem unrecognized_media_processed_unconditionally_witness :
    convertMediaQuery "print" = none ∧
    processSheetRule emptyStyleMap ⟨"p", "\x7bcolor:red\x7d", some "print"⟩ =
      processSheetRule emptyStyleMap ⟨"p", "\x7bcolor:red\x7d", none⟩ :=
  ⟨rfl, unrecognized_media_processed_unconditionally emptyStyleMap
    "p" "\x7bcolor:red\x7d" "print" rfl⟩

/-- C9: registering the same selector with the same well-formed style twice
yields the same style map, hence in every bucket the same merged entry, as
registering it exactly once — for plain keys and media-conditioned nested
keys alike. -/
theorem addToStyleMap_register_idempotent (map : StyleMap) (selector : String)
    (style : StyleObj) (hs : WFStyle style) :
    addToStyleMap (addToStyleMap map selector style) selector style =
      addToStyleMap map selector style := by
  have hext : ∀ a b : StyleMap, a.bySelector = b.bySelector → a.byClass = b.byClass →
      a.byTag = b.byTag → a.byTagClass = b.byTagClass → a = b := by
    intro a b h₁ h₂ h₃ h₄
    cases a; cases b; simp_all
  apply hext
  · rw [addToStyleMap_bySelector, addToStyleMap_bySelector,
      bucketAdd_idem _ _ hs]
  · rw [addToStyleMap_byClass, addToStyleMap_byClass]
    by_cases hc : (extractClassNames (selTarget selector)).length = 1
    · rw [if_pos hc, if_pos hc, bucketAdd_idem _ _ hs]
    · rw [if_neg hc, if_neg hc]
  · rw [addToStyleMap_byTag, addToStyleMap_byTag]
    cases htag : extractTagName (selTarget selector) with
    | none => rfl
    | some t =>
      by_cases hc : (extractClassNames (selTarget selector)).length = 0
      · simp only [if_pos hc, bucketAdd_idem _ _ hs]
      · simp only [if_neg hc]
  · rw [addToStyleMap_byTagClass, addToStyleMap_byTagClass]
    cases htag : extractTagName (selTarget selector) with
    | none => rfl
    | some t =>
      by_cases hc : (extractClassNames (selTarget selector)).length = 1
      · simp only [if_pos hc, bucketAdd_idem _ _ hs]
      · simp only [if_neg hc]

/-- C9, witness: double registration of a style carrying both a plain key
and a media-conditioned nested key collapses to single registration. -/
theorem addToStyleMap_register_idempotent_witness :
    WFStyle [("textAlign", JsVal.str "center"),
             ("@media max-width: 400", JsVal.obj [("color", JsVal.str "red")])] ∧
    addToStyleMap
        (addToStyleMap emptyStyleMap ".lead"
          [("textAlign", JsVal.str "center"),
           ("@media max-width: 400", JsVal.obj [("color", JsVal.str "red")])])
        ".lead"
        [("textAlign", JsVal.str "center"),
         ("@media max-width: 400", JsVal.obj [("color", JsVal.str "red")])] =
      addToStyleMap emptyStyleMap ".lead"
        [("textAlign", JsVal.str "center"),
         ("@media max-width: 400", JsVal.obj [("color", JsVal.str "red")])] :=
  ⟨by decide, addToStyleMap_register_idempotent emptyStyleMap ".lead"
    [("textAlign", JsVal.str "center"),
     ("@media max-width: 400", JsVal.obj [("color", JsVal.str "red")])] (by decide)⟩

theorem noDupKeys_nil {β : Type} : NoDupKeys ([] : List (String × β)) := by
  simp [NoDupKeys, objKeys]

theorem noDupKeys_foldl_lookup {g : String → Option StyleObj} (cls : List String)
    {acc : StyleObj} (h : NoDupKeys acc) :
    NoDupKeys (List.foldl
      (fun a c =>
        match g c with
        | some e => spreadObj a e
        | none => a)
      acc cls) := by
  induction cls generalizing acc with
  | nil => simpa using h
  | cons c t ih =>
    rw [List.foldl_cons]
    apply ih
    cases g c with
    | none => exact h
    | some e => exact noDupKeys_spreadObj e h

theorem noDupKeys_getStylesForElement (map : StyleMap) (tagName : String)
    (classList : List String) :
    NoDupKeys (getStylesForElement map tagName classList) := by
  unfold getStylesForElement
  have h1 : NoDupKeys (match jsLookup map.byTag (jsToLower tagName) with
      | some e => spreadObj ([] : StyleObj) e
      | none => ([] : StyleObj)) := by
    cases jsLookup map.byTag (jsToLower tagName) with
    | none => exact noDupKeys_nil
    | some e => exact noDupKeys_spreadObj e noDupKeys_nil
  exact noDupKeys_foldl_lookup classList (noDupKeys_foldl_lookup classList h1)

/-- C10: lookup-with-defaults spreads the built-in default entry for the
lowercased tag (empty when absent) under the CSS-derived style, so a
CSS-derived binding always survives into the result; and defaults exist
only for the fixed tag set `p`, `blockquote`, `h1` to `h4`, `em`, `i`,
`strong`, `b`. -/
theorem getStylesWithDefaults_spec :
    (∀ (map : StyleMap) (tagName : String) (classList : List String),
      getStylesWithDefaults map tagName classList =
        spreadObj (spreadObj [] ((jsLookup DEFAULT_STYLES (jsToLower tagName)).getD []))
          (getStylesForElement map tagName classList)) ∧
    (∀ (map : StyleMap) (tagName : String) (classList : List String) (k : String) (v : JsVal),
      jsLookup (getStylesForElement map tagName classList) k = some v →
      jsLookup (getStylesWithDefaults map tagName classList) k = some v) ∧
    (∀ (t : String) (o : StyleObj), jsLookup DEFAULT_STYLES t = some o →
      t ∈ ["p", "blockquote", "h1", "h2", "h3", "h4", "em", "i", "strong", "b"]) := by
  refine ⟨fun map tagName classList => rfl, ?_, ?_⟩
  · intro map tagName classList k v h
    exact jsLookup_spreadObj_of_nodup _
      (noDupKeys_getStylesForElement map tagName classList) h
  · intro t o h
    have := jsLookup_mem_keys h
    simpa [objKeys, DEFAULT_STYLES] using this

/-- C10, witness: for tag `p` with a CSS rule overriding `textAlign`, the
CSS value wins over the default, and the `p` default exists in the fixed
tag set. -/
theorem getStylesWithDefaults_spec_witness :
    jsLookup
      (getStylesForElement
        (parseCssToReactPdf [⟨"p", "\x7btext-align:center\x7d", none⟩]) "p" [])
      "textAlign" = some (JsVal.str "center") ∧
    jsLookup
      (getStylesWithDefaults
        (parseCssToReactPdf [⟨"p", "\x7btext-align:center\x7d", none⟩]) "p" [])
      "textAlign" = some (JsVal.str "center") ∧
    jsLookup DEFAULT_STYLES "p" =
      some [("textAlign", JsVal.str "justify"), ("marginBottom", JsVal.num 0),
            ("marginTop", JsVal.num 0)] ∧
    ("p" : String) ∈ ["p", "blockquote", "h1", "h2", "h3", "h4", "em", "i", "strong", "b"] := by
  refine ⟨rfl, ?_, rfl, ?_⟩
  · exact getStylesWithDefaults_spec.2.1
      (parseCssToReactPdf [⟨"p", "\x7btext-align:center\x7d", none⟩]) "p" []
      "textAlign" (JsVal.str "center") rfl
  · exact getStylesWithDefaults_spec.2.2 "p"
      [("textAlign", JsVal.str "justify"), ("marginBottom", JsVal.num 0),
       ("marginTop", JsVal.num 0)] rfl

-- =========================================================================
-- Unit-converter lemmas for C5
-- =========================================================================

theorem isPureNum_eq_false_of_matchNumUnit {u cs : List Char} {q : ℚ}
    (hu : u ≠ []) (h : matchNumUnit u cs = some q) : isPureNum cs = false := by
  simp only [matchNumUnit] at h
  simp only [isPureNum]
  split at h
  · exact Option.noConfusion h
  · next hemp =>
    simp only [Bool.not_eq_true] at hemp
    rw [hemp]
    simp only [Bool.not_false, Bool.true_and]
    split at h
    · next r₃ heq =>
      rw [heq]
      split at h
      · next hcond =>
        have hne : ((r₃.span (isDigitC ·)).2).isEmpty = false := by
          rw [hcond]
          cases u with
          | nil => exact absurd rfl hu
          | cons a t => rfl
        simp only [hne, Bool.and_false]
      · exact Option.noConfusion h
    · next hnotdot =>
      split at h
      · next hcond =>
        cases u with
        | nil => exact absurd rfl hu
        | cons a t =>
          by_cases ha : a = '.'
          · subst ha
            exact absurd hcond (hnotdot t)
          · rw [hcond]
            split
            · next heq2 => exact absurd heq2 (List.cons_ne_nil a t)
            · next r₃ heq2 =>
              obtain ⟨h1, h2⟩ := List.cons.injEq .. ▸ heq2
              exact absurd h1 ha
            · rfl
      · exact Option.noConfusion h

theorem matchNumUnit_other_eq_none {u u₂ cs : List Char} {q : ℚ}
    (h : matchNumUnit u cs = some q) (hne : u ≠ u₂) : matchNumUnit u₂ cs = none := by
  simp only [matchNumUnit] at h ⊢
  split at h
  · exact Option.noConfusion h
  · next hemp =>
    rw [if_neg hemp]
    split at h
    · next r₃ heq =>
      split at h
      · next hcond =>
        rw [hcond, if_neg hne]
      · exact Option.noConfusion h
    · next hnotdot =>
      split at h
      · next hcond =>
        rw [hcond, if_neg hne]
      · exact Option.noConfusion h

theorem stripNeg_decomp (cs : List Char) :
    cs = (if (stripNeg cs).1 then ['-'] else []) ++ (stripNeg cs).2 := by
  rcases cs with _ | ⟨c, t⟩
  · rfl
  · by_cases hc : c = '-'
    · subst hc
      rfl
    · have hred : stripNeg (c :: t) = (false, c :: t) := by
        unfold stripNeg
        split
        · next r heq =>
          obtain ⟨h₁, h₂⟩ := List.cons.injEq .. ▸ heq
          exact absurd h₁ hc
        · rfl
      rw [hred]
      rfl

theorem matchNumUnit_decomp {u cs : List Char} {q : ℚ}
    (h : matchNumUnit u cs = some q) : ∃ pre, cs = pre ++ u := by
  simp only [matchNumUnit] at h
  have hsign := stripNeg_decomp cs
  have hspan : (stripNeg cs).2 =
      ((stripNeg cs).2.span (isDigitC ·)).1 ++ ((stripNeg cs).2.span (isDigitC ·)).2 := by
    rw [List.span_eq_take_drop, List.takeWhile_append_dropWhile]
  split at h
  · exact Option.noConfusion h
  · split at h
    · next r₃ heq =>
      split at h
      · next hcond =>
        have hr₃ : r₃ = (r₃.span (isDigitC ·)).1 ++ u := by
          rw [← hcond, List.span_eq_take_drop, List.takeWhile_append_dropWhile]
        refine ⟨(if (stripNeg cs).1 then ['-'] else []) ++
          ((stripNeg cs).2.span (isDigitC ·)).1 ++ ('.' :: (r₃.span (isDigitC ·)).1), ?_⟩
        conv_lhs => rw [hsign, hspan, heq, hr₃]
        simp
      · exact Option.noConfusion h
    · split at h
      · next hcond =>
        refine ⟨(if (stripNeg cs).1 then ['-'] else []) ++
          ((stripNeg cs).2.span (isDigitC ·)).1, ?_⟩
        conv_lhs => rw [hsign, hspan, hcond]
        simp
      · exact Option.noConfusion h

theorem endsWith_percent_false_of_matchNumUnit {u cs : List Char} {q : ℚ}
    {c : Char} {r : List Char} (hu : u = r ++ [c]) (hc : c ≠ '%')
    (h : matchNumUnit u cs = some q) : endsWithL ['%'] cs = false := by
  obtain ⟨pre, hpre⟩ := matchNumUnit_decomp h
  subst hpre hu
  unfold endsWithL
  rw [show ((pre ++ (r ++ [c])).reverse) = c :: (r.reverse ++ pre.reverse) by simp]
  show (('%' = c : Bool) && litPrefix [] (r.reverse ++ pre.reverse)) = false
  have : ('%' = c : Bool) = false := decide_eq_false (fun hh => hc hh.symm)
  rw [this, Bool.false_and]

theorem matchNumUnit_none_of_empty_digits (u cs : List Char)
    (h : (((stripNeg cs).2.span (isDigitC ·)).1).isEmpty = true) :
    matchNumUnit u cs = none := by
  simp only [matchNumUnit]
  rw [if_pos h]

/-- When the trimmed value matches a unit token, the converter's early
branches (empty value, keywords, pure number, percentage) all fall through
and the unit chain decides the result. -/
theorem convertUnit_eq_unit_chain (s : String) {u : List Char} {q : ℚ}
    (hu : u ≠ []) (hlast : ∃ c r, u = r ++ [c] ∧ c ≠ '%')
    (h : matchNumUnit u (jsTrimL s.data) = some q) :
    convertUnit s =
      (match matchNumUnit ['e', 'm'] (jsTrimL s.data) with
       | some q₁ => .num (q₁ * BASE_FONT_SIZE_PT)
       | none =>
       match matchNumUnit ['r', 'e', 'm'] (jsTrimL s.data) with
       | some q₁ => .num (q₁ * BASE_FONT_SIZE_PT)
       | none =>
       match matchNumUnit ['p', 'x'] (jsTrimL s.data) with
       | some q₁ => .num (q₁ * (3 / 4 : ℚ))
       | none =>
       match matchNumUnit ['p', 't'] (jsTrimL s.data) with
       | some q₁ => .num q₁
       | none =>
       match matchNumUnit ['i', 'n'] (jsTrimL s.data) with
       | some q₁ => .num (q₁ * 72)
       | none =>
       match matchNumUnit ['m', 'm'] (jsTrimL s.data) with
       | some q₁ => .num (q₁ * (283465 / 100000 : ℚ))
       | none =>
       match matchNumUnit ['c', 'm'] (jsTrimL s.data) with
       | some q₁ => .num (q₁ * (283465 / 10000 : ℚ))
       | none =>
       if endsWithL ['v', 'w'] (jsTrimL s.data) || endsWithL ['v', 'h'] (jsTrimL s.data) then
         .str (String.mk (jsTrimL s.data))
       else .str (String.mk (jsTrimL s.data))) := by
  obtain ⟨c, r, hcr, hcp⟩ := hlast
  have hp : isPureNum (jsTrimL s.data) = false :=
    isPureNum_eq_false_of_matchNumUnit hu h
  have hpc : endsWithL ['%'] (jsTrimL s.data) = false :=
    endsWith_percent_false_of_matchNumUnit hcr hcp h
  by_cases h₁ : s = ""
  · rw [h₁] at h
    rw [matchNumUnit_none_of_empty_digits u (jsTrimL ("" : String).data) rfl] at h
    exact Option.noConfusion h
  by_cases h₂ : s = "inherit"
  · rw [h₂] at h
    rw [matchNumUnit_none_of_empty_digits u (jsTrimL ("inherit" : String).data) rfl] at h
    exact Option.noConfusion h
  by_cases h₃ : s = "initial"
  · rw [h₃] at h
    rw [matchNumUnit_none_of_empty_digits u (jsTrimL ("initial" : String).data) rfl] at h
    exact Option.noConfusion h
  by_cases h₄ : s = "unset"
  · rw [h₄] at h
    rw [matchNumUnit_none_of_empty_digits u (jsTrimL ("unset" : String).data) rfl] at h
    exact Option.noConfusion h
  by_cases h₅ : s = "auto"
  · rw [h₅] at h
    rw [matchNumUnit_none_of_empty_digits u (jsTrimL ("auto" : String).data) rfl] at h
    exact Option.noConfusion h
  simp only [convertUnit]
  rw [if_neg (by simp [h₁, h₂, h₃, h₄, h₅])]
  rw [if_neg (by rw [hp]; exact Bool.false_ne_true)]
  rw [if_neg (by rw [hpc]; exact Bool.false_ne_true)]

/-- C5: for every length token of coefficient-plus-unit form, the converter
multiplies the coefficient by 11 for `em` and `rem`, by 0.75 for `px`,
passes `pt` through, multiplies by 72 for `in`, by 2.83465 for `mm` and by
28.3465 for `cm`; concretely `2em` equals `22pt` numerically, `96px` gives
72, `1in` gives 72, and `10mm` gives 28.3465. -/
theorem convertUnit_factors :
    (∀ (s : String) (q : ℚ),
      (matchNumUnit ['e', 'm'] (jsTrimL s.data) = some q →
        convertUnit s = .num (q * 11)) ∧
      (matchNumUnit ['r', 'e', 'm'] (jsTrimL s.data) = some q →
        convertUnit s = .num (q * 11)) ∧
      (matchNumUnit ['p', 'x'] (jsTrimL s.data) = some q →
        convertUnit s = .num (q * (3 / 4 : ℚ))) ∧
      (matchNumUnit ['p', 't'] (jsTrimL s.data) = some q →
        convertUnit s = .num q) ∧
      (matchNumUnit ['i', 'n'] (jsTrimL s.data) = some q →
        convertUnit s = .num (q * 72)) ∧
      (matchNumUnit ['m', 'm'] (jsTrimL s.data) = some q →
        convertUnit s = .num (q * (283465 / 100000 : ℚ))) ∧
      (matchNumUnit ['c', 'm'] (jsTrimL s.data) = some q →
        convertUnit s = .num (q * (283465 / 10000 : ℚ)))) ∧
    convertUnit "2em" = convertUnit "22pt" ∧
    convertUnit "2em" = .num 22 ∧
    convertUnit "96px" = .num 72 ∧
    convertUnit "1in" = .num 72 ∧
    convertUnit "10mm" = .num (283465 / 10000 : ℚ) := by
  refine ⟨?_, by with_unfolding_all rfl, by with_unfolding_all rfl,
    by with_unfolding_all rfl, by with_unfolding_all rfl, by with_unfolding_all rfl⟩
  intro s q
  refine ⟨?_, ?_, ?_, ?_, ?_, ?_, ?_⟩
  · intro h
    rw [convertUnit_eq_unit_chain s (by decide) ⟨'m', ['e'], rfl, by decide⟩ h, h]
    rfl
  · intro h
    rw [convertUnit_eq_unit_chain s (by decide) ⟨'m', ['r', 'e'], rfl, by decide⟩ h,
      matchNumUnit_other_eq_none h
        (show (['r', 'e', 'm'] : List Char) ≠ ['e', 'm'] by decide), h]
    rfl
  · intro h
    rw [convertUnit_eq_unit_chain s (by decide) ⟨'x', ['p'], rfl, by decide⟩ h,
      matchNumUnit_other_eq_none h
        (show (['p', 'x'] : List Char) ≠ ['e', 'm'] by decide),
      matchNumUnit_other_eq_none h
        (show (['p', 'x'] : List Char) ≠ ['r', 'e', 'm'] by decide), h]
  · intro h
    rw [convertUnit_eq_unit_chain s (by decide) ⟨'t', ['p'], rfl, by decide⟩ h,
      matchNumUnit_other_eq_none h
        (show (['p', 't'] : List Char) ≠ ['e', 'm'] by decide),
      matchNumUnit_other_eq_none h
        (show (['p', 't'] : List Char) ≠ ['r', 'e', 'm'] by decide),
      matchNumUnit_other_eq_none h
        (show (['p', 't'] : List Char) ≠ ['p', 'x'] by decide), h]
  · intro h
    rw [convertUnit_eq_unit_chain s (by decide) ⟨'n', ['i'], rfl, by decide⟩ h,
      matchNumUnit_other_eq_none h
        (show (['i', 'n'] : List Char) ≠ ['e', 'm'] by decide),
      matchNumUnit_other_eq_none h
        (show (['i', 'n'] : List Char) ≠ ['r', 'e', 'm'] by decide),
      matchNumUnit_other_eq_none h
        (show (['i', 'n'] : List Char) ≠ ['p', 'x'] by decide),
      matchNumUnit_other_eq_none h
        (show (['i', 'n'] : List Char) ≠ ['p', 't'] by decide), h]
  · intro h
    rw [convertUnit_eq_unit_chain s (by decide) ⟨'m', ['m'], rfl, by decide⟩ h,
      matchNumUnit_other_eq_none h
        (show (['m', 'm'] : List Char) ≠ ['e', 'm'] by decide),
      matchNumUnit_other_eq_none h
        (show (['m', 'm'] : List Char) ≠ ['r', 'e', 'm'] by decide),
      matchNumUnit_other_eq_none h
        (show (['m', 'm'] : List Char) ≠ ['p', 'x'] by decide),
      matchNumUnit_other_eq_none h
        (show (['m', 'm'] : List Char) ≠ ['p', 't'] by decide),
      matchNumUnit_other_eq_none h
        (show (['m', 'm'] : List Char) ≠ ['i', 'n'] by decide), h]
  · intro h
    rw [convertUnit_eq_unit_chain s (by decide) ⟨'m', ['c'], rfl, by decide⟩ h,
      matchNumUnit_other_eq_none h
        (show (['c', 'm'] : List Char) ≠ ['e', 'm'] by decide),
      matchNumUnit_other_eq_none h
        (show (['c', 'm'] : List Char) ≠ ['r', 'e', 'm'] by decide),
      matchNumUnit_other_eq_none h
        (show (['c', 'm'] : List Char) ≠ ['p', 'x'] by decide),
      matchNumUnit_other_eq_none h
        (show (['c', 'm'] : List Char) ≠ ['p', 't'] by decide),
      matchNumUnit_other_eq_none h
        (show (['c', 'm'] : List Char) ≠ ['i', 'n'] by decide),
      matchNumUnit_other_eq_none h
        (show (['c', 'm'] : List Char) ≠ ['m', 'm'] by decide), h]

/-- C5, witness: the token `2em` matches the `em` pattern with coefficient
2 and converts to 22 points. -/
theorem convertUnit_factors_witness :
    matchNumUnit ['e', 'm'] (jsTrimL ("2em" : String).data) = some 2 ∧
    convertUnit "2em" = .num (2 * 11) :=
  ⟨by with_unfolding_all rfl,
    (convertUnit_factors.1 "2em" 2).1 (by with_unfolding_all rfl)⟩

-- =========================================================================
-- Tokenizer bounds for the markup parser (C8)
-- =========================================================================

theorem ciPrefix_length_le {p cs : List Char} (h : ciPrefix p cs = true) :
    p.length ≤ cs.length := by
  induction p generalizing cs with
  | nil => simp
  | cons a t ih =>
    cases cs with
    | nil => simp [ciPrefix] at h
    | cons c r =>
      simp only [ciPrefix, Bool.and_eq_true] at h
      simpa using ih h.2

theorem tagStepCore_bounds {b : Bool} {r : List Char} {cl : Bool}
    {nm a : List Char} {ln : ℕ}
    (h : Epub.tagStepCore b r = some (cl, nm, a, ln)) :
    3 ≤ ln ∧ ln ≤ 1 + (if b then 1 else 0) + r.length := by
  simp only [Epub.tagStepCore] at h
  split at h
  · exact Option.noConfusion h
  · next hemp =>
    split at h
    · next tail hdrop =>
      simp only [Option.some.injEq, Prod.mk.injEq] at h
      obtain ⟨hcl, hnm, ha, hln⟩ := h
      have hne : r.takeWhile (isWordC ·) ≠ [] := by
        intro hh
        rw [hh] at hemp
        exact hemp rfl
      have hpos : 0 < (r.takeWhile (isWordC ·)).length := List.length_pos.mpr hne
      have h₁ : (r.takeWhile (isWordC ·)).length ≤ r.length :=
        (r.takeWhile_sublist (isWordC ·)).length_le
      have h₂ := congrArg List.length hdrop
      rw [List.length_drop, List.length_cons, List.length_drop] at h₂
      subst hln
      rcases b with _ | _
      · refine ⟨by omega, ?_⟩
        show 1 + 0 + _ + _ + 1 ≤ 1 + 0 + r.length
        omega
      · refine ⟨by omega, ?_⟩
        show 1 + 1 + _ + _ + 1 ≤ 1 + 1 + r.length
        omega
    · exact Option.noConfusion h

theorem tagStep_bounds {cs : List Char} {cl : Bool} {nm a : List Char} {ln : ℕ}
    (h : Epub.tagStep cs = some (cl, nm, a, ln)) : 3 ≤ ln ∧ ln ≤ cs.length := by
  unfold Epub.tagStep at h
  split at h
  · next r₂ =>
    obtain ⟨h₃, h₄⟩ := tagStepCore_bounds h
    rw [if_pos rfl] at h₄
    simp only [List.length_cons]
    omega
  · next r =>
    obtain ⟨h₃, h₄⟩ := tagStepCore_bounds h
    rw [if_neg Bool.false_ne_true] at h₄
    simp only [List.length_cons]
    omega
  · exact Option.noConfusion h

theorem findTagFrom_bounds {l : List Char} {i : ℕ} {m : Epub.TagMatch}
    (h : Epub.findTagFrom l i = some m) :
    i ≤ m.idx ∧ m.idx + m.len ≤ i + l.length ∧ 3 ≤ m.len := by
  induction l generalizing i with
  | nil => simp [Epub.findTagFrom] at h
  | cons c cs ih =>
    rw [Epub.findTagFrom] at h
    split at h
    · next cl nm a ln hstep =>
      obtain hm := Option.some.injEq .. ▸ h
      obtain ⟨h₃, h₄⟩ := tagStep_bounds hstep
      rw [← hm]
      refine ⟨le_refl i, ?_, h₃⟩
      simpa using Nat.add_le_add_left h₄ i
    · have := ih h
      simp only [List.length_cons]
      omega

theorem findTag_bounds {html : List Char} {pos : ℕ} {m : Epub.TagMatch}
    (h : Epub.findTag html pos = some m) :
    pos ≤ m.idx ∧ m.idx + m.len ≤ html.length ∧ 3 ≤ m.len := by
  unfold Epub.findTag at h
  obtain ⟨h₁, h₂, h₃⟩ := findTagFrom_bounds h
  rw [List.length_drop] at h₂
  have hlt : pos ≤ html.length := by
    by_contra hgt
    rw [List.drop_eq_nil_of_le (by omega)] at h
    simp [Epub.findTagFrom] at h
  exact ⟨h₁, by omega, h₃⟩

theorem findCloseFrom_bounds {pat l : List Char} {i j : ℕ}
    (h : Epub.findCloseFrom pat l i = some j) :
    i ≤ j ∧ (j - i) + pat.length ≤ l.length := by
  induction l generalizing i with
  | nil => simp [Epub.findCloseFrom] at h
  | cons c cs ih =>
    rw [Epub.findCloseFrom] at h
    split at h
    · next hci =>
      obtain hj := Option.some.injEq .. ▸ h
      have := ciPrefix_length_le hci
      simp only [List.length_cons] at this ⊢
      omega
    · have := ih h
      simp only [List.length_cons]
      omega

theorem findCloseTag_bounds {html : List Char} {li : ℕ} {tag : List Char} {j : ℕ}
    (h : Epub.findCloseTag html li tag = some j) : li < j ∧ j ≤ html.length := by
  simp only [Epub.findCloseTag] at h
  cases hf : Epub.findCloseFrom ('<' :: '/' :: (tag ++ ['>'])) (html.drop li) 0 with
  | none => rw [hf] at h; exact Option.noConfusion h
  | some rel =>
    rw [hf] at h
    obtain hj := Option.some.injEq .. ▸ h
    obtain ⟨h₁, h₂⟩ := findCloseFrom_bounds hf
    rw [List.length_drop] at h₂
    simp only [List.length_cons, List.length_append, List.length_cons,
      List.length_nil] at h₂ hj
    omega

theorem fuelC_gap {L n : ℕ} (h : L + 3 ≤ n) :
    Epub.fuelC L + L + 3 ≤ Epub.fuelC n := by
  have h1 : (L + 3) * (L + 9) ≤ n * (n + 6) :=
    Nat.mul_le_mul h (by omega)
  have h2 : Epub.fuelC L + L + 3 ≤ (L + 3) * (L + 9) := by
    simp only [Epub.fuelC]
    nlinarith
  simpa only [Epub.fuelC] using le_trans h2 h1

theorem sliceL_length_le {cs : List Char} {a b : ℕ} :
    (Epub.sliceL cs a b).length ≤ b := by
  simp only [Epub.sliceL, List.length_take, List.length_drop]
  omega

theorem parse_fuel_sufficient (f : ℕ) :
    (∀ html li stack ch,
      Epub.fuelC html.length + (html.length + 1 - li) + 1 ≤ f →
      (Epub.parseLoopF f html li stack ch).isSome = true) ∧
    (∀ html tg cl,
      Epub.fuelC html.length + html.length + 3 ≤ f →
      (Epub.parseElementF f html tg cl).isSome = true) ∧
    (∀ html tg cl,
      Epub.fuelC html.length + html.length + 4 ≤ f →
      (Epub.parseElementContentF f html tg cl).isSome = true) := by
  induction f with
  | zero =>
    exact ⟨fun html li stack ch hf => absurd hf (by omega),
           fun html tg cl hf => absurd hf (by omega),
           fun html tg cl hf => absurd hf (by omega)⟩
  | succ f ih =>
    obtain ⟨ihL, ihE, ihC⟩ := ih
    refine ⟨?_, ?_, ?_⟩
    · intro html li stack ch hf
      rw [Epub.parseLoopF]
      split
      · rfl
      · next m heq =>
        obtain ⟨hb1, hb2, hb3⟩ := findTag_bounds heq
        have hnext : ∀ li₂ stack₂ ch₂, li + 1 ≤ li₂ →
            (Epub.parseLoopF f html li₂ stack₂ ch₂).isSome = true := by
          intro li₂ stack₂ ch₂ h₂
          apply ihL
          generalize Epub.fuelC html.length = K at hf ⊢
          omega
        split
        · exact hnext _ _ _ (by omega)
        · split
          · split
            · next j hj =>
              obtain ⟨hj1, hj2⟩ := findCloseTag_bounds hj
              exact hnext _ _ _ (by omega)
            · exact hnext _ _ _ (by omega)
          · split
            · split
              · exact hnext _ _ _ (by omega)
              · next fr rest =>
                split
                · have hc : (Epub.parseElementContentF f
                      (Epub.sliceL html fr.startIndex m.idx)
                      fr.tagName fr.classNames).isSome = true := by
                    apply ihC
                    have hsl : (Epub.sliceL html fr.startIndex m.idx).length ≤ m.idx :=
                      sliceL_length_le
                    have hgap := fuelC_gap
                      (show (Epub.sliceL html fr.startIndex m.idx).length + 3 ≤
                        html.length by omega)
                    generalize Epub.fuelC html.length = K at hf hgap ⊢
                    generalize Epub.fuelC
                      (Epub.sliceL html fr.startIndex m.idx).length = K₂ at hgap ⊢
                    omega
                  obtain ⟨node, hnode⟩ := Option.isSome_iff_exists.mp hc
                  rw [hnode]
                  cases rest with
                  | nil => exact hnext _ _ _ (by omega)
                  | cons g gs => exact hnext _ _ _ (by omega)
                · exact hnext _ _ _ (by omega)
            · split
              · exact hnext _ _ _ (by omega)
              · split
                · exact hnext _ _ _ (by omega)
                · exact hnext _ _ _ (by omega)
    · intro html tg cl hf
      rw [Epub.parseElementF]
      have hc : (Epub.parseLoopF f html 0 [] []).isSome = true := by
        apply ihL
        generalize Epub.fuelC html.length = K at hf ⊢
        omega
      obtain ⟨ch, hch⟩ := Option.isSome_iff_exists.mp hc
      rw [hch]
      rfl
    · intro html tg cl hf
      rw [Epub.parseElementContentF]
      split
      · rfl
      · have he : (Epub.parseElementF f html tg cl).isSome = true := by
          apply ihE
          generalize Epub.fuelC html.length = K at hf ⊢
          omega
        obtain ⟨parsed, hp⟩ := Option.isSome_iff_exists.mp he
        cases parsed with
        | text t c s =>
          rw [hp]
          rfl
        | container t c ch =>
          rw [hp]
          show (if (ch.isEmpty && !(Epub.hasSkippedHeading html) &&
              !(Epub.cleanText html).isEmpty) = true then
            some (ContentNode.text t c (String.mk (Epub.cleanText html)))
            else some (ContentNode.container t c ch)).isSome = true
          split
          · rfl
          · rfl

theorem emitText_extends (html : List Char) (lo hi : ℕ) (stack : List Epub.Frame)
    (ch : List ContentNode) : ∃ t, Epub.emitText html lo hi stack ch = ch ++ t := by
  unfold Epub.emitText
  split
  · split
    · exact ⟨_, rfl⟩
    · exact ⟨[], (List.append_nil ch).symm⟩
  · exact ⟨[], (List.append_nil ch).symm⟩

theorem emitTail_extends (html : List Char) (li : ℕ) (stack : List Epub.Frame)
    (ch : List ContentNode) : ∃ t, Epub.emitTail html li stack ch = ch ++ t := by
  unfold Epub.emitTail
  split
  · split
    · exact ⟨_, rfl⟩
    · exact ⟨[], (List.append_nil ch).symm⟩
  · exact ⟨[], (List.append_nil ch).symm⟩

theorem emitTail_cons {html : List Char} {li : ℕ} {fr : Epub.Frame}
    {rest : List Epub.Frame} {ch : List ContentNode} :
    Epub.emitTail html li (fr :: rest) ch = ch := by
  simp [Epub.emitTail]

theorem parseLoopF_extends (f : ℕ) :
    ∀ (html : List Char) (li : ℕ) (stack : List Epub.Frame)
      (ch r : List ContentNode),
      Epub.parseLoopF f html li stack ch = some r → ∃ t, r = ch ++ t := by
  induction f with
  | zero => intro html li stack ch r h; exact Option.noConfusion h
  | succ f ih =>
    intro html li stack ch r h
    have glue : ∀ {li₂ : ℕ} {stack₂ : List Epub.Frame} {ch₂ : List ContentNode},
        Epub.parseLoopF f html li₂ stack₂ ch₂ = some r →
        (∃ t₁, ch₂ = ch ++ t₁) → ∃ t, r = ch ++ t := by
      intro li₂ stack₂ ch₂ h₂ hpre
      obtain ⟨t₁, ht₁⟩ := hpre
      obtain ⟨t₂, ht₂⟩ := ih html li₂ stack₂ ch₂ r h₂
      exact ⟨t₁ ++ t₂, by rw [ht₂, ht₁, List.append_assoc]⟩
    rw [Epub.parseLoopF] at h
    split at h
    · obtain hr := (Option.some.injEq .. ▸ h).symm
      obtain ⟨t, ht⟩ := emitTail_extends html li stack ch
      exact ⟨t, hr.trans ht⟩
    · next m heq =>
      split at h
      · exact glue h (emitText_extends _ _ _ _ _)
      · split at h
        · split at h
          · exact glue h (emitText_extends _ _ _ _ _)
          · exact glue h (emitText_extends _ _ _ _ _)
        · split at h
          · split at h
            · exact glue h (emitText_extends _ _ _ _ _)
            · next fr rest =>
              split at h
              · split at h
                · exact Option.noConfusion h
                · next node hnode =>
                  split at h
                  · obtain ⟨t₀, h₀⟩ := emitText_extends html li m.idx (fr :: []) ch
                    exact glue h ⟨t₀ ++ [node], by rw [h₀, List.append_assoc]⟩
                  · exact glue h (emitText_extends _ _ _ _ _)
              · exact glue h (emitText_extends _ _ _ _ _)
          · split at h
            · exact glue h (emitText_extends _ _ _ _ _)
            · split at h
              · exact glue h (emitText_extends _ _ _ _ _)
              · exact glue h (emitText_extends _ _ _ _ _)

theorem parseLoopF_close_step (f : ℕ) (html : List Char) (li : ℕ)
    (m : Epub.TagMatch) (stack : List Epub.Frame) (ch : List ContentNode)
    (hm : Epub.findTag html li = some m) (hcl : m.closing = true)
    (hv : Epub.VOID_TAGS.contains (String.mk (lowerL m.name)) = false)
    (htop : ∀ fr, stack.head? = some fr →
      fr.tagName ≠ String.mk (lowerL m.name)) :
    Epub.parseLoopF (f + 1) html li stack ch =
      Epub.parseLoopF f html (m.idx + m.len) stack
        (Epub.emitText html li m.idx stack ch) := by
  cases stack with
  | nil =>
    simp only [Epub.parseLoopF, hm, hv, hcl, Bool.not_true, Bool.false_and,
      Bool.false_eq_true, if_false, if_true]
  | cons fr rest =>
    simp only [Epub.parseLoopF, hm, hv, hcl, Bool.not_true, Bool.false_and,
      Bool.false_eq_true, if_false, if_true]
    rw [if_neg (htop fr rfl)]

/-- C8: for every input markup string, including unbalanced or malformed
markup, the tree builder runs to completion at the stated fuel budget and
returns a content tree (so the total `parseElement` wrapper returns
exactly the fueled parser's result and never its error default); a close
tag whose lowercased name does not match the tag name at the top of the
open-frame stack is ignored: the loop steps past it with the stack
unchanged (the stack pops only on a same-name match); when no further tag
exists, frames still open at end of input are dropped silently with their
unclosed content, the loop returning exactly the children already
produced; and every successful run of the loop extends the
already-produced children list, never rewriting its prefix. -/
theorem parseElement_malformed_safety :
    (∀ (html : String) (tagName : String) (classNames : List String),
      Epub.parseElementF (Epub.parseFuel html.data.length) html.data
          tagName classNames =
        some (Epub.parseElement html tagName classNames)) ∧
    (∀ (f : ℕ) (html : List Char) (li : ℕ) (m : Epub.TagMatch)
       (stack : List Epub.Frame) (ch : List ContentNode),
      Epub.findTag html li = some m → m.closing = true →
      Epub.VOID_TAGS.contains (String.mk (lowerL m.name)) = false →
      (∀ fr, stack.head? = some fr →
        fr.tagName ≠ String.mk (lowerL m.name)) →
      Epub.parseLoopF (f + 1) html li stack ch =
        Epub.parseLoopF f html (m.idx + m.len) stack
          (Epub.emitText html li m.idx stack ch)) ∧
    (∀ (f : ℕ) (html : List Char) (li : ℕ) (fr : Epub.Frame)
       (rest : List Epub.Frame) (ch : List ContentNode),
      Epub.findTag html li = none →
      Epub.parseLoopF (f + 1) html li (fr :: rest) ch = some ch) ∧
    (∀ (f : ℕ) (html : List Char) (li : ℕ) (stack : List Epub.Frame)
       (ch r : List ContentNode),
      Epub.parseLoopF f html li stack ch = some r → ∃ t, r = ch ++ t) := by
  refine ⟨?_, ?_, ?_, ?_⟩
  · intro html tg cl
    have hs := (parse_fuel_sufficient (Epub.parseFuel html.data.length)).2.1
      html.data tg cl (le_of_eq rfl)
    obtain ⟨node, hnode⟩ := Option.isSome_iff_exists.mp hs
    rw [hnode]
    unfold Epub.parseElement
    rw [hnode]
    rfl
  · intro f html li m stack ch hm hcl hv htop
    exact parseLoopF_close_step f html li m stack ch hm hcl hv htop
  · intro f html li fr rest ch hnone
    simp only [Epub.parseLoopF, hnone, emitTail_cons]
  · intro f html li stack ch r h
    exact parseLoopF_extends f html li stack ch r h

theorem parseElement_malformed_safety_witness :
    Epub.parseElementF (Epub.parseFuel ("<div><p>Hi</div>".data.length))
        "<div><p>Hi</div>".data "body" [] =
      some (Epub.parseElement "<div><p>Hi</div>" "body" []) ∧
    Epub.parseLoopF 9 "</div>hi".data 0 [⟨"p", [], [], 0⟩] [] =
      Epub.parseLoopF 8 "</div>hi".data 6 [⟨"p", [], [], 0⟩]
        (Epub.emitText "</div>hi".data 0 0 [⟨"p", [], [], 0⟩] []) ∧
    Epub.parseLoopF 1 "hello".data 0 [⟨"p", [], [], 0⟩] [] = some [] ∧
    (∃ t, [ContentNode.text "span" [] "hi"] = ([] : List ContentNode) ++ t) :=
  ⟨parseElement_malformed_safety.1 "<div><p>Hi</div>" "body" [],
   parseElement_malformed_safety.2.1 8 "</div>hi".data 0
     ⟨0, 6, true, ['d', 'i', 'v'], []⟩ [⟨"p", [], [], 0⟩] [] rfl rfl
     (by decide)
     (by
       intro fr hfr
       injection hfr with h2
       rw [← h2]
       decide),
   parseElement_malformed_safety.2.2.1 0 "hello".data 0 ⟨"p", [], [], 0⟩ [] []
     rfl,
   parseElement_malformed_safety.2.2.2 1 "hi".data 0 [] []
     [ContentNode.text "span" [] "hi"] rfl⟩
